import Mathlib

/-!
Verification of the WLEDSnakes frame-transport core: the DDP packet encoder
(`leddisplay/ddp.py`), the logical-to-physical pixel mapping
(`leddisplay/matrix_mapping.py`, `leddisplay/demos/index_snake.py`), the
dirty-tracking framebuffer (`leddisplay/framebuffer.py`), and the full-vs-sparse
decision layer (`leddisplay/display.py`), embedded shallowly in Lean.

Colors are integer triples (Python tuples of unbounded ints); packet header
fields are naturals, masked modulo 256 exactly where the source masks with
`& 0xFF`.  Fallible code returns `Except String`; `struct.pack("!BBBBLH", ...)`
is modeled with its range enforcement (the 4-byte offset field must be below
`2 ^ 32` and the 2-byte length field at most `65535`, else `struct.error`).
The sparse encoder's chunking loop, which does not terminate in the source
when `max_pixels_per_packet <= 0`, is embedded with fuel and yields `none`
exactly on the non-terminating executions; `some (.error e)` is a raised
exception and `some (.ok ps)` a normal return.  The `_val` variants of the
loops compute the packet lists produced when every `struct.pack` call is in
range; equivalence lemmas relate them to the checked encoders under explicit
range bounds.
-/

instance {ε α : Type} [DecidableEq ε] [DecidableEq α] : DecidableEq (Except ε α) := fun x y =>
  match x, y with
  | .ok a, .ok b =>
    if h : a = b then .isTrue (by rw [h]) else .isFalse (fun hc => by cases hc; exact h rfl)
  | .error e, .error f =>
    if h : e = f then .isTrue (by rw [h]) else .isFalse (fun hc => by cases hc; exact h rfl)
  | .ok _, .error _ => .isFalse (fun hc => by cases hc)
  | .error _, .ok _ => .isFalse (fun hc => by cases hc)

/-- A color, as in the source: a tuple of three (unbounded, possibly negative)
integers. -/
def Color : Type := ℤ × ℤ × ℤ

instance : DecidableEq Color := by unfold Color; infer_instance

instance : Inhabited Color := ⟨((0 : ℤ), (0 : ℤ), (0 : ℤ))⟩

instance : IsTotal (ℕ × Color) (fun a b => a.1 ≤ b.1) :=
  ⟨fun a b => Nat.le_total a.1 b.1⟩

instance : IsTrans (ℕ × Color) (fun a b => a.1 ≤ b.1) :=
  ⟨fun _ _ _ hab hbc => Nat.le_trans hab hbc⟩

/-- `_clamp_u8` from `ddp.py`. -/
def clamp_u8 (value : ℤ) : ℕ :=
  if value < 0 then 0 else if value > 255 then 255 else value.toNat

def DDP_VER1 : ℕ := 0x40

def DDP_PUSH : ℕ := 0x01

def DDP_DATATYPE_RGB_8 : ℕ := 0x0B

def DDP_DEFAULT_MAX_PIXELS_PER_PACKET : ℤ := 480

/-- `rgb_bytes_from_colors` from `ddp.py`: three clamped bytes per color. -/
def rgb_bytes_from_colors (colors : List Color) : List ℕ :=
  colors.flatMap (fun c => [clamp_u8 c.1, clamp_u8 c.2.1, clamp_u8 c.2.2])

/-- One DDP packet: the fields packed by `struct.pack("!BBBBLH", ...)` in the
source, plus the payload bytes appended after the 10-byte header. -/
structure DDPPacket where
  flags : ℕ
  sequence : ℕ
  datatype : ℕ
  destination_id : ℕ
  offset : ℕ
  data_len : ℕ
  payload : List ℕ
deriving DecidableEq, Repr

/-- The packet value built by an in-range `struct.pack("!BBBBLH", ...)` call
site in `ddp.py`: the four single-byte fields are masked with `& 0xFF` by the
callers, the data length is the payload length.  The range enforcement that
`struct.pack` itself performs lives in `struct_pack_BBBBLH`. -/
def mk_packet (flags sequence datatype : ℕ) (destination_id : ℤ) (offset : ℕ)
    (payload : List ℕ) : DDPPacket :=
  ⟨flags % 256, sequence % 256, datatype % 256, (destination_id % 256).toNat,
    offset, payload.length, payload⟩

/-- A `struct.pack("!BBBBLH", ...)` call as issued by `ddp.py`, together with
the payload appended after the header.  The four `B` fields are masked with
`& 0xFF` by the callers and the offset is a natural, so the only failing
checks are the ones `struct.pack` performs on the wide fields, in field
order: the big-endian 4-byte `L` field (the byte offset) must be at most
`4294967295`, and the 2-byte `H` field (the payload length) at most `65535`;
otherwise the call raises `struct.error`. -/
def struct_pack_BBBBLH (flags sequence datatype : ℕ) (destination_id : ℤ)
    (offset : ℕ) (payload : List ℕ) : Except String DDPPacket :=
  if 2 ^ 32 ≤ offset then
    .error "struct.error: L format requires 0 <= number <= 4294967295"
  else if 65535 < payload.length then
    .error "struct.error: H format requires 0 <= number <= 65535"
  else
    .ok (mk_packet flags sequence datatype destination_id offset payload)

/-- The packet values of the chunking `while` loop of `build_ddp_packets`
(`ddp.py` lines 183-199) on an execution where every `struct.pack` call is in
range.  Each iteration takes a chunk of at most `max_data_len` bytes, stamps
it with the current byte offset, and sets PUSH iff the chunk reaches the end
of the stream.  `fuel` is an upper bound on the iteration count; the loop
consumes at least one byte per iteration whenever `max_data_len ≥ 1` (always
true at the call site), so `fuel = rgb_bytes.length` never runs out. -/
def chunk_packets_val (max_data_len sequence datatype : ℕ) (destination_id : ℤ)
    (total_len : ℕ) : ℕ → ℕ → List ℕ → List DDPPacket
  | _, _, [] => []
  | 0, _, _ :: _ => []
  | fuel + 1, offset, b :: rest =>
    let chunk := b :: rest.take (max_data_len - 1)
    let last := total_len ≤ offset + chunk.length
    mk_packet (DDP_VER1 ||| (if last then DDP_PUSH else 0)) sequence datatype
        destination_id offset chunk
      :: chunk_packets_val max_data_len sequence datatype destination_id total_len
          fuel (offset + chunk.length) (rest.drop (max_data_len - 1))

/-- The chunking `while` loop of `build_ddp_packets` (`ddp.py` lines 183-199),
with the `struct.pack` range checks: a chunk longer than `65535` bytes or an
offset of `2 ^ 32` or more raises `struct.error`, which propagates out of the
loop.  The fuel-exhaustion arm is unreachable from `build_ddp_packets`
because every iteration consumes at least one byte there. -/
def chunk_packets (max_data_len sequence datatype : ℕ) (destination_id : ℤ)
    (total_len : ℕ) : ℕ → ℕ → List ℕ → Except String (List DDPPacket)
  | _, _, [] => .ok []
  | 0, _, _ :: _ => .ok []
  | fuel + 1, offset, b :: rest =>
    let chunk := b :: rest.take (max_data_len - 1)
    let last := total_len ≤ offset + chunk.length
    match struct_pack_BBBBLH (DDP_VER1 ||| (if last then DDP_PUSH else 0))
        sequence datatype destination_id offset chunk with
    | .error e => .error e
    | .ok header =>
      match chunk_packets max_data_len sequence datatype destination_id total_len
          fuel (offset + chunk.length) (rest.drop (max_data_len - 1)) with
      | .error e => .error e
      | .ok ps => .ok (header :: ps)

/-- `build_ddp_packets` from `ddp.py`: validates the arguments, emits a single
PUSH-only packet for an empty stream, otherwise chunks the stream. -/
def build_ddp_packets (rgb_bytes : List ℕ) (sequence : ℕ) (destination_id : ℤ)
    (max_pixels_per_packet : ℤ) (datatype : ℕ) : Except String (List DDPPacket) :=
  if max_pixels_per_packet ≤ 0 then
    .error "max_pixels_per_packet must be > 0"
  else
    let max_data_len : ℤ := max_pixels_per_packet * 3
    if max_data_len ≤ 0 then
      .error "max_pixels_per_packet too large"
    else if ¬(0 ≤ destination_id ∧ destination_id ≤ 255) then
      .error "destination_id must be in range 0..255"
    else if rgb_bytes.length = 0 then
      match struct_pack_BBBBLH (DDP_VER1 ||| DDP_PUSH) sequence datatype
          destination_id 0 [] with
      | .error e => .error e
      | .ok header => .ok [header]
    else
      chunk_packets max_data_len.toNat sequence datatype destination_id
        rgb_bytes.length rgb_bytes.length 0 rgb_bytes

/-- The packet values of the chunk-splitting `while` loop inside `flush_run`
(`ddp.py` lines 93-108) on an execution where every `struct.pack` call is in
range.  Headers carry `offset + chunk_start` and plain `DDP_VER1` flags (PUSH
is patched in later).  When `max_payload ≤ 0` the source loop never makes
progress on a non-empty buffer (the slice is empty and `chunk_start` never
advances); that non-terminating execution is `none`. -/
def chunk_loop_val (max_payload : ℤ) (sequence datatype : ℕ) (destination_id : ℤ)
    (offset : ℕ) : ℕ → ℕ → List ℕ → Option (List DDPPacket)
  | _, _, [] => some []
  | 0, _, _ :: _ => none
  | fuel + 1, chunk_start, b :: rest =>
    if max_payload ≤ 0 then none
    else
      let chunk := b :: rest.take (max_payload.toNat - 1)
      (chunk_loop_val max_payload sequence datatype destination_id offset fuel
          (chunk_start + chunk.length) (rest.drop (max_payload.toNat - 1))).map
        (fun ps =>
          mk_packet DDP_VER1 sequence datatype destination_id (offset + chunk_start)
            chunk :: ps)

/-- The chunk-splitting `while` loop inside `flush_run` (`ddp.py` lines
93-108), with the `struct.pack` range checks.  When `max_payload ≤ 0` the
slice is empty and `chunk_start` never advances: the source then packs a
zero-length chunk at the same offset on every iteration, so it raises
`struct.error` if that fixed offset is out of range and otherwise never
terminates (`none`).  With positive `max_payload` an out-of-range offset or
chunk raises `struct.error` (`some (.error e)`), which propagates. -/
def chunk_loop (max_payload : ℤ) (sequence datatype : ℕ) (destination_id : ℤ)
    (offset : ℕ) : ℕ → ℕ → List ℕ → Option (Except String (List DDPPacket))
  | _, _, [] => some (.ok [])
  | 0, _, _ :: _ => none
  | fuel + 1, chunk_start, b :: rest =>
    if max_payload ≤ 0 then
      match struct_pack_BBBBLH DDP_VER1 sequence datatype destination_id
          (offset + chunk_start) [] with
      | .error e => some (.error e)
      | .ok _ => none
    else
      let chunk := b :: rest.take (max_payload.toNat - 1)
      match struct_pack_BBBBLH DDP_VER1 sequence datatype destination_id
          (offset + chunk_start) chunk with
      | .error e => some (.error e)
      | .ok header =>
        match chunk_loop max_payload sequence datatype destination_id offset fuel
            (chunk_start + chunk.length) (rest.drop (max_payload.toNat - 1)) with
        | none => none
        | some (.error e) => some (.error e)
        | some (.ok ps) => some (.ok (header :: ps))

/-- The packets `flush_run` appends on an execution where every `struct.pack`
call is in range: the pending run serialized at byte offset
`run_start_idx * 3` and split into chunks. -/
def flush_run_val (max_payload : ℤ) (sequence datatype : ℕ) (destination_id : ℤ)
    (run_start_idx : ℕ) (run_pixels : List Color) : Option (List DDPPacket) :=
  if run_pixels = [] then some []
  else
    let offset := run_start_idx * 3
    let rgb := rgb_bytes_from_colors run_pixels
    chunk_loop_val max_payload sequence datatype destination_id offset rgb.length 0 rgb

/-- `flush_run` from `ddp.py` (lines 82-108): serializes the pending run at
byte offset `run_start_idx * 3` and splits it into chunks, raising
`struct.error` out of any out-of-range `struct.pack` call.  Yields the packets
the source appends to its `packets` list. -/
def flush_run (max_payload : ℤ) (sequence datatype : ℕ) (destination_id : ℤ)
    (run_start_idx : ℕ) (run_pixels : List Color) :
    Option (Except String (List DDPPacket)) :=
  if run_pixels = [] then some (.ok [])
  else
    let offset := run_start_idx * 3
    let rgb := rgb_bytes_from_colors run_pixels
    chunk_loop max_payload sequence datatype destination_id offset rgb.length 0 rgb

/-- The packet values of the run-merging `for` loop of
`build_ddp_sparse_packets` (`ddp.py` lines 110-119) followed by the trailing
`flush_run()`, on an execution where every `struct.pack` call is in range: an
update is appended to the current run iff its index is exactly the next
expected one and the run stays strictly below `max_payload - 3` bytes;
otherwise the run is flushed and a fresh run starts at the update. -/
def sparse_loop_val (max_payload : ℤ) (sequence datatype : ℕ) (destination_id : ℤ) :
    List (ℕ × Color) → ℕ → List Color → List DDPPacket → Option (List DDPPacket)
  | [], run_start_idx, run_pixels, packets =>
    (flush_run_val max_payload sequence datatype destination_id run_start_idx
        run_pixels).map (fun flushed => packets ++ flushed)
  | (idx, color) :: rest, run_start_idx, run_pixels, packets =>
    if idx = run_start_idx + run_pixels.length ∧
        (run_pixels.length * 3 : ℤ) < max_payload - 3 then
      sparse_loop_val max_payload sequence datatype destination_id rest run_start_idx
        (run_pixels ++ [color]) packets
    else
      (flush_run_val max_payload sequence datatype destination_id run_start_idx
          run_pixels).bind
        (fun flushed =>
          sparse_loop_val max_payload sequence datatype destination_id rest idx [color]
            (packets ++ flushed))

/-- The run-merging `for` loop of `build_ddp_sparse_packets`
(`ddp.py` lines 110-119) followed by the trailing `flush_run()`: as
`sparse_loop_val`, but a `struct.error` raised inside a flush propagates out
(`some (.error e)`) and a non-terminating flush is `none`. -/
def sparse_loop (max_payload : ℤ) (sequence datatype : ℕ) (destination_id : ℤ) :
    List (ℕ × Color) → ℕ → List Color → List DDPPacket →
      Option (Except String (List DDPPacket))
  | [], run_start_idx, run_pixels, packets =>
    match flush_run max_payload sequence datatype destination_id run_start_idx
        run_pixels with
    | none => none
    | some (.error e) => some (.error e)
    | some (.ok flushed) => some (.ok (packets ++ flushed))
  | (idx, color) :: rest, run_start_idx, run_pixels, packets =>
    if idx = run_start_idx + run_pixels.length ∧
        (run_pixels.length * 3 : ℤ) < max_payload - 3 then
      sparse_loop max_payload sequence datatype destination_id rest run_start_idx
        (run_pixels ++ [color]) packets
    else
      match flush_run max_payload sequence datatype destination_id run_start_idx
          run_pixels with
      | none => none
      | some (.error e) => some (.error e)
      | some (.ok flushed) =>
        sparse_loop max_payload sequence datatype destination_id rest idx [color]
          (packets ++ flushed)

/-- `{p with flags := p.flags | DDP_PUSH}`: the in-place patch
`packets[-1] = bytes([flags_byte]) + last_packet[1:]` from `ddp.py` line 125. -/
def patch_push (p : DDPPacket) : DDPPacket :=
  { p with flags := p.flags ||| DDP_PUSH }

/-- `ddp.py` lines 122-125: set PUSH on the very last packet, if any. -/
def set_push_on_last : List DDPPacket → List DDPPacket
  | [] => []
  | [p] => [patch_push p]
  | p :: q :: rest => p :: set_push_on_last (q :: rest)

/-- `build_ddp_sparse_packets` from `ddp.py`: PUSH-only packet for an empty
update collection; otherwise sort by pixel index, merge runs, and set PUSH on
the last emitted packet.  `none` is the non-terminating execution,
`some (.error e)` a raised `struct.error`, `some (.ok ps)` a normal return. -/
def build_ddp_sparse_packets (pixel_updates : List (ℕ × Color)) (sequence : ℕ)
    (destination_id : ℤ) (max_pixels_per_packet : ℤ) (datatype : ℕ) :
    Option (Except String (List DDPPacket)) :=
  match pixel_updates with
  | [] =>
    match struct_pack_BBBBLH (DDP_VER1 ||| DDP_PUSH) sequence datatype
        destination_id 0 [] with
    | .error e => some (.error e)
    | .ok header => some (.ok [header])
  | _ :: _ =>
    let updates_list :=
      pixel_updates.insertionSort (fun a b => a.1 ≤ b.1)
    match updates_list with
    | [] => some (.ok [])
    | (first_idx, _) :: _ =>
      let max_payload := max_pixels_per_packet * 3
      (sparse_loop max_payload sequence datatype destination_id updates_list
          first_idx [] []).map (Except.map set_push_on_last)

/-- `xy_to_index` from `matrix_mapping.py`: row-major index with every second
row reversed when `serpentine` is set; only the `"top_left"` start corner is
implemented. -/
def xy_to_index (x y width height : ℕ) (serpentine : Bool) (start_corner : String) :
    Except String ℕ :=
  if start_corner ≠ "top_left" then
    .error "Only top_left start_corner is implemented for now."
  else if ¬(x < width ∧ y < height) then
    .error "Out of bounds"
  else if serpentine then
    if y % 2 = 0 then .ok (y * width + x)
    else .ok (y * width + (width - 1 - x))
  else .ok (y * width + x)

/-- `col_serpentine_xy_to_index`, the local helper of
`run_horizontal_serpentine_snake` in `demos/index_snake.py` (lines 77-83):
even columns top-to-bottom, odd columns bottom-to-top. -/
def col_serpentine_xy_to_index (width height x y : ℕ) : Except String ℕ :=
  if ¬(x < width ∧ y < height) then .error "x/y out of bounds"
  else if x % 2 = 0 then .ok (x * height + y)
  else .ok (x * height + (height - 1 - y))

/-- `sorted(s)` for a set of naturals: the ascending enumeration of the
elements, computed by lifting an insertion sort over the underlying
multiset. -/
def sortedIdxList (s : Finset ℕ) : List ℕ :=
  Quotient.lift (fun l : List ℕ => l.insertionSort (· ≤ ·))
    (fun a b hab =>
      have hperm : a.Perm b := hab
      List.eq_of_perm_of_sorted
        ((List.perm_insertionSort _ a).trans (hperm.trans (List.perm_insertionSort _ b).symm))
        (List.sorted_insertionSort _ a) (List.sorted_insertionSort _ b))
    s.val

/-- `MatrixFramebuffer` from `framebuffer.py`: a row-major grid of colors plus
the set of dirty logical indices (`self._dirty`). -/
structure MatrixFramebuffer where
  width : ℕ
  height : ℕ
  pixels : List Color
  dirty : Finset ℕ
deriving DecidableEq

/-- `MatrixFramebuffer.__init__`: all pixels black, nothing dirty. -/
def MatrixFramebuffer.init (width height : ℕ) : MatrixFramebuffer :=
  ⟨width, height, List.replicate (width * height) default, ∅⟩

/-- `MatrixFramebuffer.clear`: overwrite every cell and mark every index
dirty. -/
def MatrixFramebuffer.clear (fb : MatrixFramebuffer) (color : Color) :
    MatrixFramebuffer :=
  { fb with
      pixels := List.replicate (fb.width * fb.height) color,
      dirty := Finset.range (fb.width * fb.height) }

/-- `MatrixFramebuffer.fill`: alias for `clear`. -/
def MatrixFramebuffer.fill (fb : MatrixFramebuffer) (color : Color) :
    MatrixFramebuffer :=
  fb.clear color

/-- `MatrixFramebuffer.set_pixel`: bounds-checked write that records the index
as dirty only when the stored value actually changes. -/
def MatrixFramebuffer.set_pixel (fb : MatrixFramebuffer) (x y : ℕ) (color : Color) :
    Except String MatrixFramebuffer :=
  if ¬(x < fb.width ∧ y < fb.height) then .error "Out of bounds"
  else
    let idx := y * fb.width + x
    if fb.pixels.getD idx default ≠ color then
      .ok { fb with pixels := fb.pixels.set idx color, dirty := insert idx fb.dirty }
    else .ok fb

/-- `MatrixFramebuffer.get_pixel`: bounds-checked read. -/
def MatrixFramebuffer.get_pixel (fb : MatrixFramebuffer) (x y : ℕ) :
    Except String Color :=
  if ¬(x < fb.width ∧ y < fb.height) then .error "Out of bounds"
  else .ok (fb.pixels.getD (y * fb.width + x) default)

/-- `MatrixFramebuffer.get_dirty_pixels`: dirty indices in ascending order,
paired with their current colors. -/
def MatrixFramebuffer.get_dirty_pixels (fb : MatrixFramebuffer) : List (ℕ × Color) :=
  (sortedIdxList fb.dirty).map (fun idx => (idx, fb.pixels.getD idx default))

/-- `MatrixFramebuffer.clear_dirty`: empty the dirty set, keep the pixels. -/
def MatrixFramebuffer.clear_dirty (fb : MatrixFramebuffer) : MatrixFramebuffer :=
  { fb with dirty := ∅ }

/-- The mutating framebuffer operations. -/
inductive FBOp where
  | set_pixel (x y : ℕ) (color : Color)
  | clear (color : Color)
  | fill (color : Color)
  | clear_dirty
deriving DecidableEq

/-- Runs one operation on a framebuffer. -/
def FBOp.apply (op : FBOp) (fb : MatrixFramebuffer) : Except String MatrixFramebuffer :=
  match op with
  | .set_pixel x y color => fb.set_pixel x y color
  | .clear color => .ok (fb.clear color)
  | .fill color => .ok (fb.fill color)
  | .clear_dirty => .ok fb.clear_dirty

/-- Runs a sequence of framebuffer operations, stopping at the first raised
error. -/
def runOps : MatrixFramebuffer → List FBOp → Except String MatrixFramebuffer
  | fb, [] => .ok fb
  | fb, op :: rest =>
    match op.apply fb with
    | .error e => .error e
    | .ok fb' => runOps fb' rest

/-- The dirty set the specification prescribes for a trace of operations,
computed from observable pixel values only (never from the code's own dirty
bookkeeping): an index is dirty iff, since the last `clear_dirty`, some
`set_pixel` at that index actually changed its stored value, or some
`clear`/`fill` ran (which marks every in-range index unconditionally). -/
def dirtySpec : MatrixFramebuffer → List FBOp → Finset ℕ → Finset ℕ
  | _, [], acc => acc
  | fb, op :: rest, acc =>
    match op.apply fb with
    | .error _ => acc
    | .ok fb' =>
      let acc' :=
        match op with
        | .clear_dirty => ∅
        | .clear _ => acc ∪ Finset.range (fb.width * fb.height)
        | .fill _ => acc ∪ Finset.range (fb.width * fb.height)
        | .set_pixel x y _ =>
          if fb'.pixels.getD (y * fb.width + x) default ≠
              fb.pixels.getD (y * fb.width + x) default then
            insert (y * fb.width + x) acc
          else acc
      dirtySpec fb' rest acc'

/-- What `MatrixDisplay.show` does on the network, abstracted from the socket:
which encoding path ran and with which pixel data. -/
inductive ShowAction where
  | sparse (updates : List (ℕ × Color))
  | fullFrame (pixels : List Color)
  | noop
deriving DecidableEq

/-- The `_logical_to_physical` cache built in `MatrixDisplay.__post_init__`:
`mapping[y*w+x] = xy_to_index(x, y, w, h)` over the whole grid (row-serpentine
defaults). -/
def logical_to_physical (width height : ℕ) : List ℕ :=
  (List.range height).foldl
    (fun mapping y =>
      (List.range width).foldl
        (fun mapping x =>
          mapping.set (y * width + x)
            (match xy_to_index x y width height true "top_left" with
             | .ok i => i
             | .error _ => 0))
        mapping)
    (List.replicate (width * height) 0)

/-- The full-frame remap in `MatrixDisplay.show` (`display.py` lines 82-87):
`out[mapping[y*w+x]] = framebuffer.get_pixel(x, y)` over the whole grid. -/
def remap_full_frame (width height : ℕ) (fb : MatrixFramebuffer) : List Color :=
  let mapping := logical_to_physical width height
  (List.range height).foldl
    (fun out y =>
      (List.range width).foldl
        (fun out x =>
          out.set (mapping.getD (y * width + x) 0)
            (match fb.get_pixel x y with
             | .ok c => c
             | .error _ => default))
        out)
    (List.replicate (width * height) default)

/-- `MatrixDisplay.show` in `"ddp"` output mode (`display.py` lines 47-96),
as the action it selects: size check, idempotent no-op on an empty dirty set,
sparse remapped updates when `0 < dirty_count < (w*h) // 2`, full-frame remap
otherwise. -/
def MatrixDisplay_show_ddp (width height : ℕ) (fb : MatrixFramebuffer) :
    Except String ShowAction :=
  if fb.width ≠ width ∨ fb.height ≠ height then
    .error "Framebuffer size does not match display"
  else
    let dirty_logical := fb.get_dirty_pixels
    if dirty_logical = [] then .ok .noop
    else
      let threshold := width * height / 2
      if dirty_logical.length < threshold ∧ dirty_logical.length > 0 then
        let mapping := logical_to_physical width height
        .ok (.sparse (dirty_logical.map (fun u => (mapping.getD u.1 0, u.2))))
      else
        .ok (.fullFrame (remap_full_frame width height fb))

/-- `true` iff the display selected the full-frame encoding path. -/
def selectsFullFrame : Except String ShowAction → Bool
  | .ok (.fullFrame _) => true
  | _ => false

/-- An update collection whose pixel indices are the strictly consecutive run
`s, s+1, s+2, ...`, one index per color. -/
def consecutive_updates (s : ℕ) : List Color → List (ℕ × Color)
  | [] => []
  | c :: cs => (s, c) :: consecutive_updates (s + 1) cs

/-- The bytes of a list, paired with ascending positions starting at `off`. -/
def enum_from : ℕ → List ℕ → List (ℕ × ℕ)
  | _, [] => []
  | off, b :: rest => (off, b) :: enum_from (off + 1) rest

/-- Decoding one packet: each payload byte is written into the receiver's byte
array at the packet's header byte offset plus its position in the payload. -/
def writes_of (p : DDPPacket) : List (ℕ × ℕ) :=
  enum_from p.offset p.payload

/-- All byte writes performed by a packet list, in order. -/
def all_writes (ps : List DDPPacket) : List (ℕ × ℕ) :=
  (ps.map writes_of).flatten

/-- Applies a list of `(position, byte)` writes to a partial byte array, later
writes overwriting earlier ones. -/
def apply_writes (ws : List (ℕ × ℕ)) (mem : ℕ → Option ℕ) : ℕ → Option ℕ :=
  ws.foldl (fun mem w => Function.update mem w.1 (some w.2)) mem

/-- The byte array obtained by decoding a packet list into blank memory:
`none` at a position means no packet wrote there. -/
def decode_packets (ps : List DDPPacket) : ℕ → Option ℕ :=
  apply_writes (all_writes ps) (fun _ => none)

/-- The three byte writes a single sparse update `(i, (r, g, b))` stands for:
clamped channel bytes at positions `3i`, `3i+1`, `3i+2`. -/
def update_bytes (u : ℕ × Color) : List (ℕ × ℕ) :=
  [(u.1 * 3, clamp_u8 u.2.1), (u.1 * 3 + 1, clamp_u8 u.2.2.1),
    (u.1 * 3 + 2, clamp_u8 u.2.2.2)]

/-! Concrete evaluations of the embedding, mirroring the expectations of the
repository's own test suite (`tests/test_ddp.py`, `tests/test_framebuffer.py`). -/
theorem embed_check_full_frame_chunks :
    build_ddp_packets [1, 2, 3, 4, 5] 1 1 1 DDP_DATATYPE_RGB_8 =
      .ok [mk_packet DDP_VER1 1 DDP_DATATYPE_RGB_8 1 0 [1, 2, 3],
        mk_packet (DDP_VER1 ||| DDP_PUSH) 1 DDP_DATATYPE_RGB_8 1 3 [4, 5]] := by
  decide

theorem embed_check_sparse_consecutive_run :
    build_ddp_sparse_packets [(5, (1, 2, 3)), (6, (4, 5, 6)), (7, (7, 8, 9))] 2 1
        480 DDP_DATATYPE_RGB_8 =
      some (.ok [mk_packet (DDP_VER1 ||| DDP_PUSH) 2 DDP_DATATYPE_RGB_8 1 15
        [1, 2, 3, 4, 5, 6, 7, 8, 9]]) := by
  decide

theorem embed_check_sparse_gap_two_packets :
    build_ddp_sparse_packets [(0, (255, 0, 0)), (100, (0, 255, 0))] 3 1 480
        DDP_DATATYPE_RGB_8 =
      some (.ok [mk_packet DDP_VER1 3 DDP_DATATYPE_RGB_8 1 0 [255, 0, 0],
        mk_packet (DDP_VER1 ||| DDP_PUSH) 3 DDP_DATATYPE_RGB_8 1 300 [0, 255, 0]]) := by
  decide

theorem embed_check_sparse_zero_ceiling_diverges :
    build_ddp_sparse_packets [(0, (1, 2, 3))] 1 1 0 DDP_DATATYPE_RGB_8 = none := by
  decide

theorem embed_check_sparse_capacity_two_packets :
    (build_ddp_sparse_packets [(0, (1, 2, 3)), (1, (4, 5, 6))] 1 1 2
        DDP_DATATYPE_RGB_8).map (Except.map List.length) = some (.ok 2) := by
  decide

theorem embed_check_sparse_destination_mask :
    (build_ddp_sparse_packets [(0, (1, 2, 3))] 1 300 480
        DDP_DATATYPE_RGB_8).map (Except.map (List.map DDPPacket.destination_id)) =
      some (.ok [44]) := by
  decide

theorem embed_check_show_full_frame_path :
    selectsFullFrame (MatrixDisplay_show_ddp 5 1
      ⟨5, 1, [((1 : ℤ), (1 : ℤ), (1 : ℤ)), ((1 : ℤ), (1 : ℤ), (1 : ℤ)),
        default, default, default], {0, 1}⟩) = true := by
  decide

theorem embed_check_show_sparse_path :
    MatrixDisplay_show_ddp 2 2
      ⟨2, 2, [((1 : ℤ), (1 : ℤ), (1 : ℤ)), default, default, default], {0}⟩ =
      .ok (.sparse [(0, ((1 : ℤ), (1 : ℤ), (1 : ℤ)))]) := by
  decide

theorem embed_check_xy_serpentine : xy_to_index 1 1 4 4 true "top_left" = .ok 6 := by decide

theorem embed_check_xy_linear : xy_to_index 1 1 4 4 false "top_left" = .ok 5 := by decide

theorem embed_check_run_ops :
    runOps (MatrixFramebuffer.init 2 2)
      [.set_pixel 0 0 ((3 : ℤ), (4 : ℤ), (5 : ℤ)), .set_pixel 1 1 default] =
      .ok ⟨2, 2, [((3 : ℤ), (4 : ℤ), (5 : ℤ)), default, default, default], {0}⟩ := by
  decide

theorem embed_check_dirty_spec :
    dirtySpec (MatrixFramebuffer.init 2 2)
      [.set_pixel 0 0 ((3 : ℤ), (4 : ℤ), (5 : ℤ)), .set_pixel 1 1 default] ∅ = {0} := by
  decide

/-! ## Helper lemmas -/

theorem build_ddp_packets_ok (rgb_bytes : List ℕ) (sequence : ℕ)
    (destination_id : ℤ) (max_pixels_per_packet : ℤ) (datatype : ℕ)
    (hmppp : 0 < max_pixels_per_packet)
    (hdest : 0 ≤ destination_id ∧ destination_id ≤ 255) :
    build_ddp_packets rgb_bytes sequence destination_id max_pixels_per_packet
        datatype =
      if rgb_bytes.length = 0 then
        .ok [mk_packet (DDP_VER1 ||| DDP_PUSH) sequence datatype destination_id 0 []]
      else
        chunk_packets (max_pixels_per_packet * 3).toNat sequence datatype
          destination_id rgb_bytes.length rgb_bytes.length 0 rgb_bytes := by
  unfold build_ddp_packets
  rw [if_neg (by omega)]
  rw [if_neg (by omega), if_neg (not_not_intro hdest)]
  by_cases h0 : rgb_bytes.length = 0
  · rw [if_pos h0, if_pos h0]
    rfl
  · rw [if_neg h0, if_neg h0]

theorem xy_to_index_eq (x y width height : ℕ) (serpentine : Bool)
    (hx : x < width) (hy : y < height) :
    xy_to_index x y width height serpentine "top_left" =
      .ok (if serpentine then
        (if y % 2 = 0 then y * width + x else y * width + (width - 1 - x))
      else y * width + x) := by
  unfold xy_to_index
  rw [if_neg (by simp), if_neg (by simp [hx, hy])]
  cases serpentine
  · simp
  · by_cases hp : y % 2 = 0 <;> simp [hp]

/-! ## C9: empty inputs -/

/-- C9: for every sequence, destination id in 0-255, and positive chunk size,
full-frame encode on an empty byte string and sparse encode on an empty update
collection each return exactly one packet with offset 0, payload length 0 and
the PUSH bit set, rather than an error. -/
theorem empty_input_single_push_packet (sequence : ℕ) (destination_id : ℤ)
    (max_pixels_per_packet : ℤ) (datatype : ℕ)
    (hmppp : 0 < max_pixels_per_packet)
    (hdest : 0 ≤ destination_id ∧ destination_id ≤ 255) :
    (∃ p, build_ddp_packets [] sequence destination_id max_pixels_per_packet
          datatype = .ok [p] ∧
        p.offset = 0 ∧ p.data_len = 0 ∧ p.flags &&& DDP_PUSH = DDP_PUSH) ∧
    (∃ p, build_ddp_sparse_packets [] sequence destination_id
          max_pixels_per_packet datatype = some (.ok [p]) ∧
        p.offset = 0 ∧ p.data_len = 0 ∧ p.flags &&& DDP_PUSH = DDP_PUSH) := by
  constructor
  · refine ⟨mk_packet (DDP_VER1 ||| DDP_PUSH) sequence datatype destination_id 0 [],
      ?_, rfl, rfl, by show (DDP_VER1 ||| DDP_PUSH) % 256 &&& DDP_PUSH = DDP_PUSH; decide⟩
    rw [build_ddp_packets_ok _ _ _ _ _ hmppp hdest]
    simp
  · exact ⟨mk_packet (DDP_VER1 ||| DDP_PUSH) sequence datatype destination_id 0 [],
      rfl, rfl, rfl, by show (DDP_VER1 ||| DDP_PUSH) % 256 &&& DDP_PUSH = DDP_PUSH; decide⟩

/-- Witness for `empty_input_single_push_packet` at sequence 7, destination 1,
480 pixels per packet. -/
theorem empty_input_single_push_packet_witness :
    (∃ p, build_ddp_packets [] 7 1 480 DDP_DATATYPE_RGB_8 = .ok [p] ∧
        p.offset = 0 ∧ p.data_len = 0 ∧ p.flags &&& DDP_PUSH = DDP_PUSH) ∧
    (∃ p, build_ddp_sparse_packets [] 7 1 480 DDP_DATATYPE_RGB_8 = some (.ok [p]) ∧
        p.offset = 0 ∧ p.data_len = 0 ∧ p.flags &&& DDP_PUSH = DDP_PUSH) :=
  empty_input_single_push_packet 7 1 480 DDP_DATATYPE_RGB_8 (by decide) (by decide)

/-! ## C4: argument validation -/

/-- C4 counterexample: the sparse encoder does not fail on a destination id
outside 0-255; it happily encodes (the header keeps only the low byte,
`300 & 0xFF = 44`). -/
theorem sparse_encode_no_destination_validation :
    build_ddp_sparse_packets [(0, ((1 : ℤ), (2 : ℤ), (3 : ℤ)))] 1 300 480
        DDP_DATATYPE_RGB_8 =
      some (.ok [mk_packet (DDP_VER1 ||| DDP_PUSH) 1 DDP_DATATYPE_RGB_8 300 0
        [1, 2, 3]]) := by
  decide

/-- C4 amended: only the full-frame encoder validates its arguments — it fails
for every input when `max_pixels_per_packet ≤ 0` and when `destination_id` is
outside 0-255 — while the sparse encoder performs no validation: an
out-of-range destination id is truncated to its low byte and the call
succeeds, and a non-positive `max_pixels_per_packet` is not rejected (on a
non-empty update collection the flush loop simply never terminates). -/
theorem encoder_argument_validation (rgb_bytes : List ℕ) (sequence : ℕ)
    (destination_id : ℤ) (max_pixels_per_packet : ℤ) (datatype : ℕ) :
    (max_pixels_per_packet ≤ 0 →
      build_ddp_packets rgb_bytes sequence destination_id max_pixels_per_packet
          datatype = .error "max_pixels_per_packet must be > 0") ∧
    (0 < max_pixels_per_packet → ¬(0 ≤ destination_id ∧ destination_id ≤ 255) →
      build_ddp_packets rgb_bytes sequence destination_id max_pixels_per_packet
          datatype = .error "destination_id must be in range 0..255") ∧
    build_ddp_sparse_packets [(2, ((9 : ℤ), (9 : ℤ), (9 : ℤ)))] 5 999 480
        DDP_DATATYPE_RGB_8 =
      some (.ok [mk_packet (DDP_VER1 ||| DDP_PUSH) 5 DDP_DATATYPE_RGB_8 999 6
        [9, 9, 9]]) ∧
    build_ddp_sparse_packets [(0, ((1 : ℤ), (2 : ℤ), (3 : ℤ)))] 1 1 0
        DDP_DATATYPE_RGB_8 = none := by
  refine ⟨fun h => ?_, fun h1 h2 => ?_, by decide, by decide⟩
  · unfold build_ddp_packets
    rw [if_pos h]
  · unfold build_ddp_packets
    rw [if_neg (by omega), if_neg (by omega), if_pos h2]

/-- Witness for `encoder_argument_validation`: both full-frame validation
failures at concrete arguments. -/
theorem encoder_argument_validation_witness :
    build_ddp_packets [1, 2, 3] 1 1 0 DDP_DATATYPE_RGB_8 =
        .error "max_pixels_per_packet must be > 0" ∧
    build_ddp_packets [1, 2, 3] 1 999 480 DDP_DATATYPE_RGB_8 =
        .error "destination_id must be in range 0..255" :=
  ⟨(encoder_argument_validation [1, 2, 3] 1 1 0 DDP_DATATYPE_RGB_8).1 (by decide),
    (encoder_argument_validation [1, 2, 3] 1 999 480 DDP_DATATYPE_RGB_8).2.1
      (by decide) (by decide)⟩

/-! ## C7 and C8: wiring modes of the pixel mapper -/

/-- C7 counterexample: neither value of the `serpentine` flag makes
`xy_to_index` compute the column-serpentine mapping — already on a 2x3 grid
the in-grid point (0, 1) disagrees with `col_serpentine_xy_to_index` for both
modes. -/
theorem xy_to_index_no_column_serpentine_mode :
    (0 < 2 ∧ 1 < 3 ∧
      xy_to_index 0 1 2 3 true "top_left" ≠ col_serpentine_xy_to_index 2 3 0 1) ∧
    (0 < 2 ∧ 1 < 3 ∧
      xy_to_index 0 1 2 3 false "top_left" ≠ col_serpentine_xy_to_index 2 3 0 1) := by
  decide

/-- C7 amended: `xy_to_index` supports two caller-selected wiring modes —
row-serpentine (`serpentine = true`: even rows `y*W+x`, odd rows
`y*W+(W-1-x)`) and plain row-major (`serpentine = false`) — and these modes
genuinely differ; the column-serpentine mapping (even columns `x*H+y`, odd
columns `x*H+(H-1-y)`) exists only as the separate demo-local function
`col_serpentine_xy_to_index`, not as a mode of `xy_to_index`. -/
theorem wiring_modes_of_mapper (width height x y : ℕ) (hx : x < width)
    (hy : y < height) :
    ((y % 2 = 0 → xy_to_index x y width height true "top_left" =
        .ok (y * width + x)) ∧
      (y % 2 = 1 → xy_to_index x y width height true "top_left" =
        .ok (y * width + (width - 1 - x)))) ∧
    xy_to_index x y width height false "top_left" = .ok (y * width + x) ∧
    xy_to_index 0 1 2 2 true "top_left" ≠ xy_to_index 0 1 2 2 false "top_left" ∧
    ((x % 2 = 0 → col_serpentine_xy_to_index width height x y =
        .ok (x * height + y)) ∧
      (x % 2 = 1 → col_serpentine_xy_to_index width height x y =
        .ok (x * height + (height - 1 - y)))) := by
  refine ⟨⟨fun hp => ?_, fun hp => ?_⟩, ?_, by decide, fun hp => ?_, fun hp => ?_⟩
  · rw [xy_to_index_eq x y width height true hx hy]
    simp [hp]
  · rw [xy_to_index_eq x y width height true hx hy]
    simp [hp]
  · rw [xy_to_index_eq x y width height false hx hy]
    simp
  · unfold col_serpentine_xy_to_index
    rw [if_neg (by simp [hx, hy]), if_pos hp]
  · unfold col_serpentine_xy_to_index
    rw [if_neg (by simp [hx, hy]), if_neg (by omega)]

/-- Witness for `wiring_modes_of_mapper` at (1, 1) on a 4x4 grid. -/
theorem wiring_modes_of_mapper_witness :
    ((1 % 2 = 0 → xy_to_index 1 1 4 4 true "top_left" = .ok (1 * 4 + 1)) ∧
      (1 % 2 = 1 → xy_to_index 1 1 4 4 true "top_left" =
        .ok (1 * 4 + (4 - 1 - 1)))) ∧
    xy_to_index 1 1 4 4 false "top_left" = .ok (1 * 4 + 1) ∧
    xy_to_index 0 1 2 2 true "top_left" ≠ xy_to_index 0 1 2 2 false "top_left" ∧
    ((1 % 2 = 0 → col_serpentine_xy_to_index 4 4 1 1 = .ok (1 * 4 + 1)) ∧
      (1 % 2 = 1 → col_serpentine_xy_to_index 4 4 1 1 =
        .ok (1 * 4 + (4 - 1 - 1)))) :=
  wiring_modes_of_mapper 4 4 1 1 (by decide) (by decide)

/-- C8: for every grid size and either wiring mode of `xy_to_index`, the
mapping is injective on in-grid coordinates, lands in `[0, W*H)`, attains
every index in `[0, W*H)`, and on the serpentine mode computes `y*W+x` on
even rows and `y*W+(W-1-x)` on odd rows. -/
theorem xy_to_index_bijective (width height : ℕ) (serpentine : Bool) :
    (∀ x1 y1 x2 y2, x1 < width → y1 < height → x2 < width → y2 < height →
      xy_to_index x1 y1 width height serpentine "top_left" =
        xy_to_index x2 y2 width height serpentine "top_left" →
      x1 = x2 ∧ y1 = y2) ∧
    (∀ x y, x < width → y < height →
      ∃ i, xy_to_index x y width height serpentine "top_left" = .ok i ∧
        i < width * height) ∧
    (∀ n, n < width * height →
      ∃ x y, x < width ∧ y < height ∧
        xy_to_index x y width height serpentine "top_left" = .ok n) ∧
    (∀ x y, x < width → y < height → serpentine = true →
      (y % 2 = 0 → xy_to_index x y width height serpentine "top_left" =
        .ok (y * width + x)) ∧
      (y % 2 = 1 → xy_to_index x y width height serpentine "top_left" =
        .ok (y * width + (width - 1 - x)))) := by
  have hval : ∀ x y, x < width → y < height →
      xy_to_index x y width height serpentine "top_left" =
        .ok (y * width + (if serpentine ∧ y % 2 = 1 then width - 1 - x else x)) := by
    intro x y hx hy
    rw [xy_to_index_eq x y width height serpentine hx hy]
    cases serpentine
    · simp
    · by_cases hp : y % 2 = 0
      · simp [hp]
      · simp [hp, Nat.mod_two_ne_zero.mp hp]
  have hxfm_lt : ∀ x, x < width →
      (∀ y, (if serpentine ∧ y % 2 = 1 then width - 1 - x else x) < width) := by
    intro x hx y
    split <;> omega
  have hdecomp : ∀ {y1 a1 y2 a2 : ℕ}, a1 < width → a2 < width →
      y1 * width + a1 = y2 * width + a2 → y1 = y2 ∧ a1 = a2 := by
    intro y1 a1 y2 a2 h1 h2 heq
    have hq1 : (y1 * width + a1) / width = y1 := by
      rw [Nat.mul_comm y1 width, Nat.mul_add_div (by omega) y1 a1,
        Nat.div_eq_of_lt h1]
      omega
    have hq2 : (y2 * width + a2) / width = y2 := by
      rw [Nat.mul_comm y2 width, Nat.mul_add_div (by omega) y2 a2,
        Nat.div_eq_of_lt h2]
      omega
    have hy : y1 = y2 := by rw [← hq1, ← hq2, heq]
    subst hy
    exact ⟨rfl, by omega⟩
  refine ⟨?_, ?_, ?_, ?_⟩
  · intro x1 y1 x2 y2 hx1 hy1 hx2 hy2 heq
    rw [hval x1 y1 hx1 hy1, hval x2 y2 hx2 hy2] at heq
    have heq' := Except.ok.inj heq
    obtain ⟨hy, ha⟩ := hdecomp (hxfm_lt x1 hx1 y1) (hxfm_lt x2 hx2 y2) heq'
    subst hy
    refine ⟨?_, rfl⟩
    by_cases hc : serpentine ∧ y1 % 2 = 1 <;> simp [hc] at ha <;> omega
  · intro x y hx hy
    refine ⟨_, hval x y hx hy, ?_⟩
    calc y * width + (if serpentine ∧ y % 2 = 1 then width - 1 - x else x)
        < y * width + width := Nat.add_lt_add_left (hxfm_lt x hx y) _
      _ = (y + 1) * width := by ring
      _ ≤ height * width := Nat.mul_le_mul_right _ (by omega)
      _ = width * height := Nat.mul_comm _ _
  · intro n hn
    have hw : 0 < width := by
      rcases Nat.eq_zero_or_pos width with h | h
      · subst h; simp at hn
      · exact h
    have hy : n / width < height := Nat.div_lt_of_lt_mul (by omega)
    have ha : n % width < width := Nat.mod_lt _ hw
    have hdm : n / width * width + n % width = n := by
      rw [Nat.mul_comm (n / width) width]
      exact Nat.div_add_mod n width
    by_cases hc : serpentine = true ∧ n / width % 2 = 1
    · refine ⟨width - 1 - n % width, n / width, by omega, hy, ?_⟩
      rw [hval _ _ (by omega) hy, if_pos hc]
      have harith : width - 1 - (width - 1 - n % width) = n % width := by omega
      rw [harith, hdm]
    · refine ⟨n % width, n / width, ha, hy, ?_⟩
      rw [hval _ _ ha hy, if_neg hc, hdm]
  · intro x y hx hy hsp
    subst hsp
    constructor
    · intro hp
      rw [hval x y hx hy]
      simp [hp]
    · intro hp
      rw [hval x y hx hy]
      simp [hp]

/-- Witness for `xy_to_index_bijective` on a 3x2 serpentine grid: index 4 is
attained in-grid. -/
theorem xy_to_index_bijective_witness :
    ∃ x y, x < 3 ∧ y < 2 ∧ xy_to_index x y 3 2 true "top_left" = .ok 4 :=
  (xy_to_index_bijective 3 2 true).2.2.1 4 (by decide)

/-! ## C1: full-frame chunking round trip -/

theorem chunk_packets_flatten (max_data_len sequence datatype : ℕ)
    (destination_id : ℤ) (total_len : ℕ) :
    ∀ fuel offset bytes, bytes.length ≤ fuel →
      ((chunk_packets_val max_data_len sequence datatype destination_id total_len
          fuel offset bytes).map DDPPacket.payload).flatten = bytes := by
  intro fuel
  induction fuel with
  | zero =>
    intro offset bytes h
    have hb : bytes = [] := List.eq_nil_of_length_eq_zero (by omega)
    subst hb
    rfl
  | succ n ih =>
    intro offset bytes h
    cases bytes with
    | nil => rfl
    | cons b rest =>
      simp only [chunk_packets_val, List.map_cons, List.flatten_cons]
      rw [ih _ _ (by simp only [List.length_drop]; simp at h; omega)]
      show (b :: rest.take (max_data_len - 1)) ++ rest.drop (max_data_len - 1) =
        b :: rest
      simp [List.take_append_drop]

theorem chunk_packets_payload_le (max_data_len sequence datatype : ℕ)
    (destination_id : ℤ) (total_len : ℕ) (hmdl : 1 ≤ max_data_len) :
    ∀ fuel offset bytes,
      ∀ p ∈ chunk_packets_val max_data_len sequence datatype destination_id total_len
          fuel offset bytes, p.payload.length ≤ max_data_len := by
  intro fuel
  induction fuel with
  | zero =>
    intro offset bytes p hp
    cases bytes with
    | nil => simp [chunk_packets_val] at hp
    | cons b rest => simp [chunk_packets_val] at hp
  | succ n ih =>
    intro offset bytes p hp
    cases bytes with
    | nil => simp [chunk_packets_val] at hp
    | cons b rest =>
      simp only [chunk_packets_val, List.mem_cons] at hp
      rcases hp with hp | hp
      · subst hp
        show (b :: rest.take (max_data_len - 1)).length ≤ max_data_len
        simp only [List.length_cons, List.length_take]
        omega
      · exact ih _ _ p hp

theorem chunk_packets_offsets (max_data_len sequence datatype : ℕ)
    (destination_id : ℤ) (total_len : ℕ) :
    ∀ fuel offset bytes, bytes.length ≤ fuel →
      ∀ i (h : i < (chunk_packets_val max_data_len sequence datatype destination_id
          total_len fuel offset bytes).length),
        ((chunk_packets_val max_data_len sequence datatype destination_id total_len
            fuel offset bytes).get ⟨i, h⟩).offset =
          offset + ((((chunk_packets_val max_data_len sequence datatype destination_id
            total_len fuel offset bytes).take i).map DDPPacket.payload).flatten).length := by
  intro fuel
  induction fuel with
  | zero =>
    intro offset bytes hb i h
    have hbn : bytes = [] := List.eq_nil_of_length_eq_zero (by omega)
    subst hbn
    simp [chunk_packets_val] at h
  | succ n ih =>
    intro offset bytes hb i h
    cases bytes with
    | nil => simp [chunk_packets_val] at h
    | cons b rest =>
      rcases i with _ | j
      · simp [chunk_packets_val, mk_packet]
      · simp only [chunk_packets_val] at h ⊢
        rw [List.get_cons_succ]
        rw [ih _ _ (by simp only [List.length_drop]; simp at hb; omega) j
          (by simpa using h)]
        simp only [List.take_succ_cons, List.map_cons, List.flatten_cons,
          List.length_append]
        show offset + (b :: rest.take (max_data_len - 1)).length + _ =
          offset + ((b :: rest.take (max_data_len - 1)).length + _)
        omega

theorem chunk_packets_eq_val (max_data_len sequence datatype : ℕ)
    (destination_id : ℤ) (total_len : ℕ)
    (hmdl1 : 1 ≤ max_data_len) (hmdl2 : max_data_len ≤ 65535) :
    ∀ fuel offset bytes, offset + bytes.length ≤ 2 ^ 32 →
      chunk_packets max_data_len sequence datatype destination_id total_len
          fuel offset bytes =
        .ok (chunk_packets_val max_data_len sequence datatype destination_id
          total_len fuel offset bytes) := by
  intro fuel
  induction fuel with
  | zero =>
    intro offset bytes hoff
    cases bytes with
    | nil => rfl
    | cons b rest => rfl
  | succ n ih =>
    intro offset bytes hoff
    cases bytes with
    | nil => rfl
    | cons b rest =>
      have hlen : (b :: rest).length = rest.length + 1 := by
        simp [List.length_cons]
      have hchunklen : (b :: rest.take (max_data_len - 1)).length =
          1 + min (max_data_len - 1) rest.length := by
        simp [List.length_cons, List.length_take]
        omega
      have hpack : ∀ fl : ℕ,
          struct_pack_BBBBLH fl sequence datatype destination_id offset
              (b :: rest.take (max_data_len - 1)) =
            .ok (mk_packet fl sequence datatype destination_id offset
              (b :: rest.take (max_data_len - 1))) := by
        intro fl
        unfold struct_pack_BBBBLH
        rw [if_neg (by rw [hlen] at hoff; omega),
          if_neg (by rw [hchunklen]; rw [hlen] at hoff; omega)]
      have hrec := ih (offset + (b :: rest.take (max_data_len - 1)).length)
        (rest.drop (max_data_len - 1))
        (by
          rw [hchunklen]
          simp only [List.length_drop]
          rw [hlen] at hoff
          omega)
      simp only [chunk_packets, chunk_packets_val]
      rw [hpack]
      simp only [hrec]

theorem chunk_packets_first_error (mdl seq dt : ℕ) (dest : ℤ) (total fuel : ℕ)
    (b : ℕ) (rest : List ℕ) (e : String)
    (hpack : ∀ fl : ℕ, struct_pack_BBBBLH fl seq dt dest 0
      (b :: rest.take (mdl - 1)) = .error e) :
    chunk_packets mdl seq dt dest total (fuel + 1) 0 (b :: rest) = .error e := by
  simp only [chunk_packets]
  rw [hpack]

/-- C1 counterexample: a 65536-byte stream with `max_pixels_per_packet = 21846`
(chunk ceiling 65538 bytes) makes the first chunk exceed the 16-bit length
field of the packet header, so the encoder raises `struct.error` instead of
returning packets. -/
theorem full_frame_chunk_overflow :
    build_ddp_packets (List.replicate 65536 0) 1 1 21846 DDP_DATATYPE_RGB_8 =
      .error "struct.error: H format requires 0 <= number <= 65535" := by
  rw [build_ddp_packets_ok _ _ _ _ _ (by decide) (by decide)]
  rw [if_neg (by rw [List.length_replicate]; omega)]
  rw [show ((21846 : ℤ) * 3).toNat = 65538 from by decide]
  rw [List.length_replicate]
  rw [show (65536 : ℕ) = 65535 + 1 from by norm_num]
  rw [List.replicate_succ]
  refine chunk_packets_first_error 65538 1 DDP_DATATYPE_RGB_8 1 (65535 + 1) 65535
    0 (List.replicate 65535 0) _ ?_
  intro fl
  unfold struct_pack_BBBBLH
  rw [if_neg (by norm_num), if_pos (by
    rw [List.length_cons, List.length_take, List.length_replicate]
    omega)]

/-- C1 amended: for every byte string of at most `2 ^ 32` bytes, every positive
`max_pixels_per_packet` with a chunk ceiling of at most 65535 bytes (so every
`struct.pack` call is in range), and a valid destination id, the full-frame
encoder succeeds with packets whose payloads are at most
`max_pixels_per_packet * 3` bytes, whose header byte offsets equal the
position of their payload in the input stream, and whose payloads
concatenated in list (= ascending offset) order reproduce the input
exactly. -/
theorem full_frame_encode_roundtrip (rgb_bytes : List ℕ) (sequence : ℕ)
    (destination_id : ℤ) (max_pixels_per_packet : ℤ) (datatype : ℕ)
    (hmppp : 0 < max_pixels_per_packet)
    (hdest : 0 ≤ destination_id ∧ destination_id ≤ 255)
    (hchunk : max_pixels_per_packet * 3 ≤ 65535)
    (hlen : rgb_bytes.length ≤ 2 ^ 32) :
    ∃ ps, build_ddp_packets rgb_bytes sequence destination_id
        max_pixels_per_packet datatype = .ok ps ∧
      (∀ p ∈ ps, (p.payload.length : ℤ) ≤ max_pixels_per_packet * 3) ∧
      (∀ i (h : i < ps.length),
        (ps.get ⟨i, h⟩).offset =
          (((ps.take i).map DDPPacket.payload).flatten).length) ∧
      (ps.map DDPPacket.payload).flatten = rgb_bytes := by
  rw [build_ddp_packets_ok _ _ _ _ _ hmppp hdest]
  by_cases hempty : rgb_bytes.length = 0
  · rw [if_pos hempty]
    have hbn : rgb_bytes = [] := List.eq_nil_of_length_eq_zero hempty
    subst hbn
    refine ⟨_, rfl, ?_, ?_, rfl⟩
    · intro p hp
      simp only [List.mem_singleton] at hp
      subst hp
      show ((([] : List ℕ).length : ℤ)) ≤ _
      simp only [List.length_nil, Nat.cast_zero]
      omega
    · intro i h
      simp only [List.length_singleton] at h
      have hi : i = 0 := by omega
      subst hi
      simp [mk_packet]
  · rw [if_neg hempty]
    have htn : 1 ≤ (max_pixels_per_packet * 3).toNat := by omega
    rw [chunk_packets_eq_val (max_pixels_per_packet * 3).toNat sequence datatype
      destination_id rgb_bytes.length htn (by omega) rgb_bytes.length 0 rgb_bytes
      (by omega)]
    refine ⟨_, rfl, ?_, ?_, ?_⟩
    · intro p hp
      have hle := chunk_packets_payload_le (max_pixels_per_packet * 3).toNat
        sequence datatype destination_id rgb_bytes.length htn
        rgb_bytes.length 0 rgb_bytes p hp
      omega
    · intro i h
      have hoff := chunk_packets_offsets (max_pixels_per_packet * 3).toNat
        sequence datatype destination_id rgb_bytes.length rgb_bytes.length 0
        rgb_bytes (le_refl _) i h
      simpa using hoff
    · exact chunk_packets_flatten (max_pixels_per_packet * 3).toNat sequence
        datatype destination_id rgb_bytes.length rgb_bytes.length 0 rgb_bytes
        (le_refl _)

/-- Witness for `full_frame_encode_roundtrip`: a 5-byte stream with a 1-pixel
chunk ceiling. -/
theorem full_frame_encode_roundtrip_witness :
    ∃ ps, build_ddp_packets [1, 2, 3, 4, 5] 1 1 1 DDP_DATATYPE_RGB_8 = .ok ps ∧
      (∀ p ∈ ps, (p.payload.length : ℤ) ≤ 1 * 3) ∧
      (∀ i (h : i < ps.length),
        (ps.get ⟨i, h⟩).offset =
          (((ps.take i).map DDPPacket.payload).flatten).length) ∧
      (ps.map DDPPacket.payload).flatten = [1, 2, 3, 4, 5] :=
  full_frame_encode_roundtrip [1, 2, 3, 4, 5] 1 1 1 DDP_DATATYPE_RGB_8
    (by decide) (by decide) (by decide) (by decide)

/-! ## C5: PUSH on exactly the last packet -/

theorem chunk_packets_push (max_data_len sequence datatype : ℕ)
    (destination_id : ℤ) (total_len : ℕ) :
    ∀ fuel offset bytes, bytes.length ≤ fuel → bytes ≠ [] →
      offset + bytes.length = total_len →
      chunk_packets_val max_data_len sequence datatype destination_id total_len fuel
          offset bytes ≠ [] ∧
      (∀ p ∈ (chunk_packets_val max_data_len sequence datatype destination_id
          total_len fuel offset bytes).dropLast, p.flags &&& DDP_PUSH = 0) ∧
      (∀ p, (chunk_packets_val max_data_len sequence datatype destination_id
          total_len fuel offset bytes).getLast? = some p →
        p.flags &&& DDP_PUSH = DDP_PUSH) := by
  intro fuel
  induction fuel with
  | zero =>
    intro offset bytes hb hne _
    exact absurd (List.eq_nil_of_length_eq_zero (by omega)) hne
  | succ n ih =>
    intro offset bytes hb hne htot
    cases bytes with
    | nil => exact absurd rfl hne
    | cons b rest =>
      by_cases hdrop : rest.drop (max_data_len - 1) = []
      · have hrlen : rest.length ≤ max_data_len - 1 := by
          have := List.length_drop (max_data_len - 1) rest
          rw [hdrop] at this
          simp at this
          omega
        have hchunk : (b :: rest.take (max_data_len - 1)).length =
            (b :: rest).length := by
          simp only [List.length_cons, List.length_take]
          omega
        have hlast : total_len ≤ offset + (b :: rest.take (max_data_len - 1)).length := by
          omega
        simp only [chunk_packets_val, hdrop]
        simp only [if_pos hlast]
        refine ⟨by simp [chunk_packets_val], ?_, ?_⟩
        · intro p hp
          simp [chunk_packets_val] at hp
        · intro p hp
          simp only [chunk_packets_val, List.getLast?_singleton, Option.some.injEq] at hp
          subst hp
          show ((DDP_VER1 ||| DDP_PUSH) % 256) &&& DDP_PUSH = DDP_PUSH
          decide
      · have hdlen : (rest.drop (max_data_len - 1)).length ≤ n := by
          simp only [List.length_drop]
          simp at hb
          omega
        have hchunklen : (b :: rest.take (max_data_len - 1)).length +
            (rest.drop (max_data_len - 1)).length = (b :: rest).length := by
          simp only [List.length_cons, List.length_take, List.length_drop]
          omega
        have hdpos : 0 < (rest.drop (max_data_len - 1)).length :=
          List.length_pos.mpr hdrop
        have hnotlast : ¬(total_len ≤ offset +
            (b :: rest.take (max_data_len - 1)).length) := by
          simp only [List.length_cons] at htot hchunklen ⊢
          omega
        obtain ⟨hne', hdl', hlast'⟩ := ih (offset +
            (b :: rest.take (max_data_len - 1)).length)
          (rest.drop (max_data_len - 1)) hdlen hdrop (by omega)
        simp only [chunk_packets_val]
        simp only [if_neg hnotlast]
        cases hL : chunk_packets_val max_data_len sequence datatype destination_id
            total_len n (offset + (b :: rest.take (max_data_len - 1)).length)
            (rest.drop (max_data_len - 1)) with
        | nil => exact absurd hL hne'
        | cons q qs =>
          rw [hL] at hdl' hlast'
          refine ⟨by simp, ?_, ?_⟩
          · intro p hp
            rw [List.dropLast_cons₂] at hp
            rcases List.mem_cons.mp hp with hp | hp
            · subst hp
              show ((DDP_VER1 ||| 0) % 256) &&& DDP_PUSH = 0
              decide
            · exact hdl' p hp
          · intro p hp
            rw [List.getLast?_cons_cons] at hp
            exact hlast' p hp

theorem chunk_loop_success (max_payload : ℤ) (sequence datatype : ℕ)
    (destination_id : ℤ) (offset : ℕ) (hmp : 0 < max_payload) :
    ∀ fuel chunk_start bytes, bytes.length ≤ fuel →
      ∃ out, chunk_loop_val max_payload sequence datatype destination_id offset fuel
          chunk_start bytes = some out ∧
        (∀ p ∈ out, p.flags = DDP_VER1 % 256) ∧
        (bytes ≠ [] → out ≠ []) := by
  intro fuel
  induction fuel with
  | zero =>
    intro cs bytes hb
    have hbn : bytes = [] := List.eq_nil_of_length_eq_zero (by omega)
    subst hbn
    exact ⟨[], rfl, by simp, by simp⟩
  | succ n ih =>
    intro cs bytes hb
    cases bytes with
    | nil => exact ⟨[], rfl, by simp, by simp⟩
    | cons b rest =>
      obtain ⟨out, hout, hflags, _⟩ :=
        ih (cs + (b :: rest.take (max_payload.toNat - 1)).length)
          (rest.drop (max_payload.toNat - 1))
          (by simp only [List.length_drop]; simp at hb; omega)
      refine ⟨mk_packet DDP_VER1 sequence datatype destination_id (offset + cs)
          (b :: rest.take (max_payload.toNat - 1)) :: out, ?_, ?_, by simp⟩
      · simp only [chunk_loop_val, if_neg (by omega : ¬max_payload ≤ 0)]
        rw [hout]
        rfl
      · intro p hp
        rcases List.mem_cons.mp hp with hp | hp
        · subst hp; rfl
        · exact hflags p hp

theorem flush_run_success (max_payload : ℤ) (sequence datatype : ℕ)
    (destination_id : ℤ) (run_start_idx : ℕ) (run_pixels : List Color)
    (hmp : 0 < max_payload) :
    ∃ out, flush_run_val max_payload sequence datatype destination_id run_start_idx
        run_pixels = some out ∧
      (∀ p ∈ out, p.flags = DDP_VER1 % 256) ∧
      (run_pixels ≠ [] → out ≠ []) := by
  by_cases hrp : run_pixels = []
  · subst hrp
    exact ⟨[], by simp [flush_run_val], by simp, by simp⟩
  · obtain ⟨out, hout, hflags, hne⟩ := chunk_loop_success max_payload sequence
      datatype destination_id (run_start_idx * 3) hmp
      (rgb_bytes_from_colors run_pixels).length 0 (rgb_bytes_from_colors run_pixels)
      (le_refl _)
    refine ⟨out, ?_, hflags, fun _ => hne ?_⟩
    · simp only [flush_run_val, if_neg hrp]
      exact hout
    · cases run_pixels with
      | nil => exact absurd rfl hrp
      | cons c cs => simp [rgb_bytes_from_colors]

theorem sparse_loop_success (max_payload : ℤ) (sequence datatype : ℕ)
    (destination_id : ℤ) (hmp : 0 < max_payload) :
    ∀ pending run_start_idx run_pixels packets,
      ∃ out, sparse_loop_val max_payload sequence datatype destination_id pending
          run_start_idx run_pixels packets = some (packets ++ out) ∧
        (∀ p ∈ out, p.flags = DDP_VER1 % 256) ∧
        ((pending ≠ [] ∨ run_pixels ≠ []) → out ≠ []) := by
  intro pending
  induction pending with
  | nil =>
    intro rs rp packets
    obtain ⟨out, hout, hflags, hne⟩ := flush_run_success max_payload sequence
      datatype destination_id rs rp hmp
    refine ⟨out, ?_, hflags, ?_⟩
    · simp only [sparse_loop_val]
      rw [hout]
      rfl
    · rintro (h | h)
      · exact absurd rfl h
      · exact hne h
  | cons u rest ih =>
    intro rs rp packets
    obtain ⟨idx, color⟩ := u
    by_cases hcond : idx = rs + rp.length ∧ (rp.length * 3 : ℤ) < max_payload - 3
    · obtain ⟨out, hout, hflags, hne⟩ := ih rs (rp ++ [color]) packets
      refine ⟨out, ?_, hflags, fun _ => hne (by right; simp)⟩
      simp only [sparse_loop_val, if_pos hcond]
      exact hout
    · obtain ⟨fl, hfl, hflflags, _⟩ := flush_run_success max_payload sequence
        datatype destination_id rs rp hmp
      obtain ⟨out, hout, hflags, hne⟩ := ih idx [color] (packets ++ fl)
      refine ⟨fl ++ out, ?_, ?_, ?_⟩
      · simp only [sparse_loop_val, if_neg hcond]
        rw [hfl]
        show sparse_loop_val max_payload sequence datatype destination_id rest idx
          [color] (packets ++ fl) = some (packets ++ (fl ++ out))
        rw [hout, List.append_assoc]
      · intro p hp
        rcases List.mem_append.mp hp with hp | hp
        · exact hflflags p hp
        · exact hflags p hp
      · intro _
        have : out ≠ [] := hne (by right; simp)
        simp [this]

theorem set_push_on_last_concat : ∀ (ps : List DDPPacket) (q : DDPPacket),
    set_push_on_last (ps ++ [q]) = ps ++ [patch_push q] := by
  intro ps q
  induction ps with
  | nil => rfl
  | cons a ps ih =>
    cases hpq : ps ++ [q] with
    | nil => simp at hpq
    | cons x xs =>
      rw [hpq] at ih
      show set_push_on_last (a :: (ps ++ [q])) = a :: (ps ++ [patch_push q])
      rw [hpq]
      show a :: set_push_on_last (x :: xs) = a :: (ps ++ [patch_push q])
      rw [ih]

theorem rgb_bytes_length (colors : List Color) :
    (rgb_bytes_from_colors colors).length = 3 * colors.length := by
  induction colors with
  | nil => rfl
  | cons c cs ih =>
    simp only [rgb_bytes_from_colors, List.flatMap_cons, List.length_append,
      List.length_cons, List.length_nil] at ih ⊢
    omega

theorem chunk_loop_eq_val (max_payload : ℤ) (sequence datatype : ℕ)
    (destination_id : ℤ) (offset : ℕ) (hmp2 : max_payload ≤ 65535) :
    ∀ fuel chunk_start bytes, offset + chunk_start + bytes.length ≤ 2 ^ 32 →
      chunk_loop max_payload sequence datatype destination_id offset fuel
          chunk_start bytes =
        (chunk_loop_val max_payload sequence datatype destination_id offset fuel
          chunk_start bytes).map Except.ok := by
  intro fuel
  induction fuel with
  | zero =>
    intro cs bytes hoff
    cases bytes with
    | nil => rfl
    | cons b rest => rfl
  | succ n ih =>
    intro cs bytes hoff
    cases bytes with
    | nil => rfl
    | cons b rest =>
      by_cases hmp : max_payload ≤ 0
      · have hpack : struct_pack_BBBBLH DDP_VER1 sequence datatype destination_id
            (offset + cs) [] =
            .ok (mk_packet DDP_VER1 sequence datatype destination_id
              (offset + cs) []) := by
          unfold struct_pack_BBBBLH
          rw [if_neg (by simp only [List.length_cons] at hoff; omega),
            if_neg (by simp)]
        simp only [chunk_loop, chunk_loop_val, if_pos hmp]
        rw [hpack]
        rfl
      · have htn : max_payload.toNat ≤ 65535 := by omega
        have hpack : struct_pack_BBBBLH DDP_VER1 sequence datatype destination_id
            (offset + cs) (b :: rest.take (max_payload.toNat - 1)) =
            .ok (mk_packet DDP_VER1 sequence datatype destination_id (offset + cs)
              (b :: rest.take (max_payload.toNat - 1))) := by
          unfold struct_pack_BBBBLH
          rw [if_neg (by simp only [List.length_cons] at hoff; omega),
            if_neg (by simp only [List.length_cons, List.length_take]; omega)]
        have hrec := ih (cs + (b :: rest.take (max_payload.toNat - 1)).length)
          (rest.drop (max_payload.toNat - 1))
          (by
            simp only [List.length_cons, List.length_take, List.length_drop]
              at hoff ⊢
            omega)
        simp only [chunk_loop, chunk_loop_val, if_neg hmp]
        rw [hpack]
        simp only [hrec]
        cases chunk_loop_val max_payload sequence datatype destination_id offset n
            (cs + (b :: rest.take (max_payload.toNat - 1)).length)
            (rest.drop (max_payload.toNat - 1)) with
        | none => rfl
        | some ps => rfl

theorem flush_run_eq_val (max_payload : ℤ) (sequence datatype : ℕ)
    (destination_id : ℤ) (run_start_idx : ℕ) (run_pixels : List Color)
    (hmp2 : max_payload ≤ 65535)
    (hoff : run_pixels = [] ∨
      run_start_idx * 3 + run_pixels.length * 3 ≤ 2 ^ 32) :
    flush_run max_payload sequence datatype destination_id run_start_idx
        run_pixels =
      (flush_run_val max_payload sequence datatype destination_id run_start_idx
        run_pixels).map Except.ok := by
  by_cases hrp : run_pixels = []
  · subst hrp
    rfl
  · simp only [flush_run, flush_run_val, if_neg hrp]
    refine chunk_loop_eq_val max_payload sequence datatype destination_id
      (run_start_idx * 3) hmp2 (rgb_bytes_from_colors run_pixels).length 0
      (rgb_bytes_from_colors run_pixels) ?_
    rcases hoff with h | h
    · exact absurd h hrp
    · rw [rgb_bytes_length]
      omega

theorem sparse_loop_eq_val (max_payload : ℤ) (sequence datatype : ℕ)
    (destination_id : ℤ) (hmp2 : max_payload ≤ 65535) :
    ∀ pending run_start_idx run_pixels packets,
      (∀ u ∈ pending, u.1 * 3 + 3 ≤ 2 ^ 32) →
      (run_pixels = [] ∨
        run_start_idx * 3 + run_pixels.length * 3 ≤ 2 ^ 32) →
      sparse_loop max_payload sequence datatype destination_id pending
          run_start_idx run_pixels packets =
        (sparse_loop_val max_payload sequence datatype destination_id pending
          run_start_idx run_pixels packets).map Except.ok := by
  intro pending
  induction pending with
  | nil =>
    intro rs rp packets hpend hrun
    have hflush := flush_run_eq_val max_payload sequence datatype destination_id
      rs rp hmp2 hrun
    simp only [sparse_loop, sparse_loop_val]
    rw [hflush]
    cases flush_run_val max_payload sequence datatype destination_id rs rp with
    | none => rfl
    | some fl => rfl
  | cons u rest ih =>
    intro rs rp packets hpend hrun
    obtain ⟨idx, color⟩ := u
    have hidx : idx * 3 + 3 ≤ 2 ^ 32 := hpend (idx, color) (by simp)
    have hpend' : ∀ v ∈ rest, v.1 * 3 + 3 ≤ 2 ^ 32 :=
      fun v hv => hpend v (by simp [hv])
    by_cases hcond : idx = rs + rp.length ∧
        (rp.length * 3 : ℤ) < max_payload - 3
    · have hrun' : rp ++ [color] = [] ∨
          rs * 3 + (rp ++ [color]).length * 3 ≤ 2 ^ 32 := by
        right
        obtain ⟨h1, _⟩ := hcond
        simp only [List.length_append, List.length_singleton]
        omega
      simp only [sparse_loop, sparse_loop_val, if_pos hcond]
      exact ih rs (rp ++ [color]) packets hpend' hrun'
    · have hflush := flush_run_eq_val max_payload sequence datatype destination_id
        rs rp hmp2 hrun
      simp only [sparse_loop, sparse_loop_val, if_neg hcond]
      rw [hflush]
      cases hfl : flush_run_val max_payload sequence datatype destination_id
          rs rp with
      | none => rfl
      | some fl =>
        show sparse_loop max_payload sequence datatype destination_id rest idx
            [color] (packets ++ fl) =
          (sparse_loop_val max_payload sequence datatype destination_id rest idx
            [color] (packets ++ fl)).map Except.ok
        refine ih idx [color] (packets ++ fl) hpend' ?_
        right
        simp only [List.length_singleton]
        omega

/-- C5 counterexample: a 65600-byte stream with `max_pixels_per_packet = 21846`
(chunk ceiling 65538 bytes) makes the first chunk exceed the 16-bit length
field, so the full-frame encoder raises `struct.error` and returns no packet
list at all — in particular no list whose last packet carries PUSH. -/
theorem push_flag_overflow_cex :
    build_ddp_packets (List.replicate 65600 1) 2 1 21846 DDP_DATATYPE_RGB_8 =
      .error "struct.error: H format requires 0 <= number <= 65535" := by
  rw [build_ddp_packets_ok _ _ _ _ _ (by decide) (by decide)]
  rw [if_neg (by rw [List.length_replicate]; omega)]
  rw [show ((21846 : ℤ) * 3).toNat = 65538 from by decide]
  rw [List.length_replicate]
  rw [show (65600 : ℕ) = 65599 + 1 from by norm_num]
  rw [List.replicate_succ]
  refine chunk_packets_first_error 65538 2 DDP_DATATYPE_RGB_8 1 (65599 + 1) 65599
    1 (List.replicate 65599 1) _ ?_
  intro fl
  unfold struct_pack_BBBBLH
  rw [if_neg (by norm_num), if_pos (by
    rw [List.length_cons, List.length_take, List.length_replicate]
    omega)]

/-- C5 amended: for every in-range input — a byte string of at most `2 ^ 32`
bytes for full-frame encode, and an update collection whose byte offsets fit
the 32-bit offset field for sparse encode — with a positive chunk size of at
most 65535 bytes and a valid destination id, the returned packet list is
non-empty, every packet before the last has the PUSH bit clear, and the last
packet has the PUSH bit set (so exactly one packet carries PUSH, the last
one). -/
theorem push_flag_on_exactly_last_packet (rgb_bytes : List ℕ)
    (pixel_updates : List (ℕ × Color)) (sequence : ℕ) (destination_id : ℤ)
    (max_pixels_per_packet : ℤ) (datatype : ℕ)
    (hmppp : 0 < max_pixels_per_packet)
    (hdest : 0 ≤ destination_id ∧ destination_id ≤ 255)
    (hchunk : max_pixels_per_packet * 3 ≤ 65535)
    (hlen : rgb_bytes.length ≤ 2 ^ 32)
    (hidx : ∀ u ∈ pixel_updates, u.1 * 3 + 3 ≤ 2 ^ 32) :
    (∃ ps, build_ddp_packets rgb_bytes sequence destination_id
        max_pixels_per_packet datatype = .ok ps ∧ ps ≠ [] ∧
      (∀ p ∈ ps.dropLast, p.flags &&& DDP_PUSH = 0) ∧
      (∀ p, ps.getLast? = some p → p.flags &&& DDP_PUSH = DDP_PUSH)) ∧
    (∃ ps, build_ddp_sparse_packets pixel_updates sequence destination_id
        max_pixels_per_packet datatype = some (.ok ps) ∧ ps ≠ [] ∧
      (∀ p ∈ ps.dropLast, p.flags &&& DDP_PUSH = 0) ∧
      (∀ p, ps.getLast? = some p → p.flags &&& DDP_PUSH = DDP_PUSH)) := by
  constructor
  · rw [build_ddp_packets_ok _ _ _ _ _ hmppp hdest]
    by_cases hempty : rgb_bytes.length = 0
    · rw [if_pos hempty]
      refine ⟨_, rfl, by simp, by simp, ?_⟩
      intro p hp
      simp only [List.getLast?_singleton, Option.some.injEq] at hp
      subst hp
      show ((DDP_VER1 ||| DDP_PUSH) % 256) &&& DDP_PUSH = DDP_PUSH
      decide
    · rw [if_neg hempty]
      have htn : 1 ≤ (max_pixels_per_packet * 3).toNat := by omega
      rw [chunk_packets_eq_val (max_pixels_per_packet * 3).toNat sequence datatype
        destination_id rgb_bytes.length htn (by omega) rgb_bytes.length 0
        rgb_bytes (by omega)]
      obtain ⟨hne, hdl, hlast⟩ := chunk_packets_push
        (max_pixels_per_packet * 3).toNat sequence datatype destination_id
        rgb_bytes.length rgb_bytes.length 0 rgb_bytes (le_refl _)
        (fun hc => hempty (by rw [hc]; rfl)) (by omega)
      exact ⟨_, rfl, hne, hdl, hlast⟩
  · cases pixel_updates with
    | nil =>
      refine ⟨_, rfl, by simp, by simp, ?_⟩
      intro p hp
      simp only [List.getLast?_singleton, Option.some.injEq] at hp
      subst hp
      show ((DDP_VER1 ||| DDP_PUSH) % 256) &&& DDP_PUSH = DDP_PUSH
      decide
    | cons u us =>
      cases hL : (u :: us).insertionSort (fun a b => a.1 ≤ b.1) with
      | nil =>
        have := List.length_insertionSort (fun (a b : ℕ × Color) => a.1 ≤ b.1)
          (u :: us)
        rw [hL] at this
        simp at this
      | cons v vs =>
        obtain ⟨vi, vc⟩ := v
        obtain ⟨out, hsl, hflags, hne⟩ := sparse_loop_success
          (max_pixels_per_packet * 3) sequence datatype destination_id
          (by omega) ((vi, vc) :: vs) vi [] []
        have houtne : out ≠ [] := hne (by left; simp)
        have hperm : ((vi, vc) :: vs).Perm (u :: us) := by
          rw [← hL]
          exact List.perm_insertionSort (fun a b => a.1 ≤ b.1) (u :: us)
        have hpend : ∀ w ∈ (vi, vc) :: vs, w.1 * 3 + 3 ≤ 2 ^ 32 :=
          fun w hw => hidx w (hperm.mem_iff.mp hw)
        have heq := sparse_loop_eq_val (max_pixels_per_packet * 3) sequence
          datatype destination_id (by omega) ((vi, vc) :: vs) vi [] [] hpend
          (Or.inl rfl)
        have hbuild : build_ddp_sparse_packets (u :: us) sequence destination_id
            max_pixels_per_packet datatype =
            some (.ok (set_push_on_last out)) := by
          simp only [build_ddp_sparse_packets]
          rw [hL]
          show (sparse_loop (max_pixels_per_packet * 3) sequence datatype
            destination_id ((vi, vc) :: vs) vi [] []).map
              (Except.map set_push_on_last) =
            some (.ok (set_push_on_last out))
          rw [heq, hsl]
          rfl
        have hdecomp : out = out.dropLast ++ [out.getLast houtne] :=
          (List.dropLast_append_getLast houtne).symm
        refine ⟨set_push_on_last out, hbuild, ?_, ?_, ?_⟩
        · rw [hdecomp, set_push_on_last_concat]
          simp
        · intro p hp
          rw [hdecomp, set_push_on_last_concat, List.dropLast_concat] at hp
          have hpmem : p ∈ out := (List.dropLast_sublist out).subset hp
          rw [hflags p hpmem]
          show (DDP_VER1 % 256) &&& DDP_PUSH = 0
          decide
        · intro p hp
          rw [hdecomp, set_push_on_last_concat, List.getLast?_concat,
            Option.some.injEq] at hp
          subst hp
          show ((out.getLast houtne).flags ||| DDP_PUSH) &&& DDP_PUSH = DDP_PUSH
          rw [hflags _ (List.getLast_mem houtne)]
          show ((DDP_VER1 % 256) ||| DDP_PUSH) &&& DDP_PUSH = DDP_PUSH
          decide

/-- Witness for `push_flag_on_exactly_last_packet`: a 5-byte frame split into
two packets, and sparse updates at pixels 0 and 100. -/
theorem push_flag_on_exactly_last_packet_witness :
    (∃ ps, build_ddp_packets [1, 2, 3, 4, 5] 2 1 1 DDP_DATATYPE_RGB_8 =
        .ok ps ∧ ps ≠ [] ∧
      (∀ p ∈ ps.dropLast, p.flags &&& DDP_PUSH = 0) ∧
      (∀ p, ps.getLast? = some p → p.flags &&& DDP_PUSH = DDP_PUSH)) ∧
    (∃ ps, build_ddp_sparse_packets [(0, ((255 : ℤ), (0 : ℤ), (0 : ℤ))),
          (100, ((0 : ℤ), (255 : ℤ), (0 : ℤ)))] 2 1 1 DDP_DATATYPE_RGB_8 =
        some (.ok ps) ∧ ps ≠ [] ∧
      (∀ p ∈ ps.dropLast, p.flags &&& DDP_PUSH = 0) ∧
      (∀ p, ps.getLast? = some p → p.flags &&& DDP_PUSH = DDP_PUSH)) :=
  push_flag_on_exactly_last_packet [1, 2, 3, 4, 5]
    [(0, ((255 : ℤ), (0 : ℤ), (0 : ℤ))), (100, ((0 : ℤ), (255 : ℤ), (0 : ℤ)))]
    2 1 1 DDP_DATATYPE_RGB_8 (by decide) (by decide) (by decide) (by decide)
    (by decide)

/-! ## C2: run merging in the sparse encoder -/

theorem chunk_loop_nil (max_payload : ℤ) (sequence datatype : ℕ)
    (destination_id : ℤ) (offset : ℕ) :
    ∀ fuel chunk_start, chunk_loop_val max_payload sequence datatype destination_id
      offset fuel chunk_start [] = some [] := by
  intro fuel cs
  cases fuel <;> rfl

theorem chunk_loop_single (max_payload : ℤ) (sequence datatype : ℕ)
    (destination_id : ℤ) (offset : ℕ) :
    ∀ fuel chunk_start bytes, bytes ≠ [] → bytes.length ≤ fuel →
      (bytes.length : ℤ) ≤ max_payload →
      chunk_loop_val max_payload sequence datatype destination_id offset fuel
          chunk_start bytes =
        some [mk_packet DDP_VER1 sequence datatype destination_id
          (offset + chunk_start) bytes] := by
  intro fuel cs bytes hne hfuel hlen
  cases bytes with
  | nil => exact absurd rfl hne
  | cons b rest =>
    cases fuel with
    | zero => simp at hfuel
    | succ n =>
      have hmp : ¬max_payload ≤ 0 := by
        simp only [List.length_cons] at hlen
        push_cast at hlen
        omega
      simp only [chunk_loop_val, if_neg hmp]
      have hrest : rest.length ≤ max_payload.toNat - 1 := by
        simp only [List.length_cons] at hlen
        push_cast at hlen
        omega
      rw [List.take_of_length_le hrest, List.drop_eq_nil_of_le hrest]
      rw [chunk_loop_nil]
      rfl

theorem consecutive_updates_key_ge (colors : List Color) :
    ∀ s, ∀ u ∈ consecutive_updates s colors, s ≤ u.1 := by
  induction colors with
  | nil => intro s u hu; simp [consecutive_updates] at hu
  | cons c cs ih =>
    intro s u hu
    simp only [consecutive_updates, List.mem_cons] at hu
    rcases hu with hu | hu
    · subst hu; exact le_refl _
    · have := ih (s + 1) u hu
      omega

theorem consecutive_updates_key_lt (colors : List Color) :
    ∀ s, ∀ u ∈ consecutive_updates s colors, u.1 < s + colors.length := by
  induction colors with
  | nil => intro s u hu; simp [consecutive_updates] at hu
  | cons c cs ih =>
    intro s u hu
    simp only [consecutive_updates, List.mem_cons] at hu
    rcases hu with hu | hu
    · subst hu
      simp only [List.length_cons]
      omega
    · have := ih (s + 1) u hu
      simp only [List.length_cons]
      omega

theorem consecutive_updates_sorted (colors : List Color) :
    ∀ s, List.Sorted (fun a b : ℕ × Color => a.1 ≤ b.1)
      (consecutive_updates s colors) := by
  induction colors with
  | nil => intro s; exact List.sorted_nil
  | cons c cs ih =>
    intro s
    refine List.Pairwise.cons ?_ (ih (s + 1))
    intro u hu
    have := consecutive_updates_key_ge cs (s + 1) u hu
    omega

theorem sparse_loop_consecutive (max_payload : ℤ) (sequence datatype : ℕ)
    (destination_id : ℤ) :
    ∀ (colors : List Color) (run_start_idx : ℕ) (run_pixels : List Color)
      (packets : List DDPPacket),
      (((run_pixels.length + colors.length) * 3 : ℤ)) < max_payload →
      sparse_loop_val max_payload sequence datatype destination_id
          (consecutive_updates (run_start_idx + run_pixels.length) colors)
          run_start_idx run_pixels packets =
        (flush_run_val max_payload sequence datatype destination_id run_start_idx
            (run_pixels ++ colors)).map (fun flushed => packets ++ flushed) := by
  intro colors
  induction colors with
  | nil =>
    intro rs rp pk _
    simp [consecutive_updates, sparse_loop_val]
  | cons c cs ih =>
    intro rs rp pk h
    simp only [List.length_cons] at h
    push_cast at h
    rw [consecutive_updates, sparse_loop_val]
    rw [if_pos ⟨rfl, by omega⟩]
    have hkey : rs + rp.length + 1 = rs + (rp ++ [c]).length := by
      simp
      omega
    rw [hkey]
    have hcond : (((rp ++ [c]).length + cs.length : ℕ) * 3 : ℤ) < max_payload := by
      simp only [List.length_append, List.length_cons, List.length_nil]
      push_cast
      omega
    rw [ih rs (rp ++ [c]) pk hcond]
    have hl : rp ++ [c] ++ cs = rp ++ c :: cs := by simp
    rw [hl]

/-- C2 counterexample: with `max_pixels_per_packet = 2`, the run of exactly 2
strictly consecutive updates {0, 1} is emitted as TWO packets, not one — the
append guard `len(run_pixels) * 3 < max_payload - 3` closes the run one pixel
before the byte ceiling. -/
theorem sparse_full_capacity_run_splits :
    (build_ddp_sparse_packets [(0, ((1 : ℤ), (2 : ℤ), (3 : ℤ))),
        (1, ((4 : ℤ), (5 : ℤ), (6 : ℤ)))] 1 1 2 DDP_DATATYPE_RGB_8).map
      (Except.map List.length) = some (.ok 2) := by
  decide

/-- C2 amended: the sparse encoder merges strictly consecutive indices into
runs, but closes a run one pixel before the byte ceiling — an update is
appended only while the run stays strictly below `max_pixels_per_packet - 1`
pixels, so, provided the run's byte offsets fit the packet header's 32-bit
offset field and the chunk ceiling fits its 16-bit length field, (a) a
consecutive run of `n < max_pixels_per_packet` pixels becomes exactly one
packet with offset `3*start` and `3n` payload bytes, (b) a run of exactly
`max_pixels_per_packet` consecutive pixels is split into two packets
(`max_pixels_per_packet - 1` pixels, then 1), and (c) updates at indices
{5,6,7} with the default ceiling still give one packet, offset 15, length 9. -/
theorem sparse_run_merging (s : ℕ) (colors : List Color) (sequence : ℕ)
    (destination_id : ℤ) (max_pixels_per_packet : ℤ) (datatype : ℕ)
    (hne : colors ≠ [])
    (hfit : ((colors.length : ℤ)) < max_pixels_per_packet)
    (hoff : (s + colors.length) * 3 ≤ 2 ^ 32)
    (hchunk : max_pixels_per_packet * 3 ≤ 65535) :
    (∃ p, build_ddp_sparse_packets (consecutive_updates s colors) sequence
        destination_id max_pixels_per_packet datatype = some (.ok [p]) ∧
      p.offset = s * 3 ∧ p.payload = rgb_bytes_from_colors colors ∧
      p.data_len = 3 * colors.length ∧ p.flags &&& DDP_PUSH = DDP_PUSH) ∧
    build_ddp_sparse_packets [(10, ((1 : ℤ), (2 : ℤ), (3 : ℤ))),
        (11, ((4 : ℤ), (5 : ℤ), (6 : ℤ))), (12, ((7 : ℤ), (8 : ℤ), (9 : ℤ)))]
        1 1 3 DDP_DATATYPE_RGB_8 =
      some (.ok [mk_packet DDP_VER1 1 DDP_DATATYPE_RGB_8 1 30 [1, 2, 3, 4, 5, 6],
        patch_push (mk_packet DDP_VER1 1 DDP_DATATYPE_RGB_8 1 36 [7, 8, 9])]) ∧
    build_ddp_sparse_packets [(5, ((1 : ℤ), (2 : ℤ), (3 : ℤ))),
        (6, ((4 : ℤ), (5 : ℤ), (6 : ℤ))), (7, ((7 : ℤ), (8 : ℤ), (9 : ℤ)))]
        2 1 480 DDP_DATATYPE_RGB_8 =
      some (.ok [patch_push (mk_packet DDP_VER1 2 DDP_DATATYPE_RGB_8 1 15
        [1, 2, 3, 4, 5, 6, 7, 8, 9])]) := by
  refine ⟨?_, by decide, by decide⟩
  cases colors with
  | nil => exact absurd rfl hne
  | cons c cs =>
    have hsort : ((s, c) :: consecutive_updates (s + 1) cs).insertionSort
        (fun a b => a.1 ≤ b.1) = (s, c) :: consecutive_updates (s + 1) cs := by
      have := (consecutive_updates_sorted (c :: cs) s).insertionSort_eq
      rw [consecutive_updates] at this
      exact this
    have hpend : ∀ u ∈ (s, c) :: consecutive_updates (s + 1) cs,
        u.1 * 3 + 3 ≤ 2 ^ 32 := by
      intro u hu
      have hlt : u.1 < s + (c :: cs).length := by
        have hmem : u ∈ consecutive_updates s (c :: cs) := by
          rw [consecutive_updates]
          exact hu
        exact consecutive_updates_key_lt (c :: cs) s u hmem
      simp only [List.length_cons] at hlt hoff
      omega
    have heq := sparse_loop_eq_val (max_pixels_per_packet * 3) sequence datatype
      destination_id (by omega) ((s, c) :: consecutive_updates (s + 1) cs) s []
      [] hpend (Or.inl rfl)
    have hloop := sparse_loop_consecutive (max_pixels_per_packet * 3) sequence
      datatype destination_id (c :: cs) s [] []
      (by
        simp only [List.length_nil, List.length_cons] at hfit ⊢
        push_cast at hfit ⊢
        omega)
    simp only [List.length_nil, Nat.add_zero, List.nil_append] at hloop
    rw [consecutive_updates] at hloop
    have hrgbne : rgb_bytes_from_colors (c :: cs) ≠ [] := by
      have := rgb_bytes_length (c :: cs)
      intro hcon
      rw [hcon] at this
      simp at this
    have hflush : flush_run_val (max_pixels_per_packet * 3) sequence datatype
        destination_id s (c :: cs) =
        some [mk_packet DDP_VER1 sequence datatype destination_id (s * 3 + 0)
          (rgb_bytes_from_colors (c :: cs))] := by
      simp only [flush_run_val, if_neg (by simp : ¬(c :: cs : List Color) = [])]
      exact chunk_loop_single (max_pixels_per_packet * 3) sequence datatype
        destination_id (s * 3) (rgb_bytes_from_colors (c :: cs)).length 0
        (rgb_bytes_from_colors (c :: cs)) hrgbne (le_refl _)
        (by
          rw [rgb_bytes_length]
          simp only [List.length_cons] at hfit ⊢
          push_cast at hfit ⊢
          omega)
    refine ⟨patch_push (mk_packet DDP_VER1 sequence datatype destination_id
      (s * 3 + 0) (rgb_bytes_from_colors (c :: cs))), ?_, by simp [patch_push, mk_packet],
      rfl, ?_, ?_⟩
    · rw [consecutive_updates]
      simp only [build_ddp_sparse_packets]
      rw [hsort]
      show (sparse_loop (max_pixels_per_packet * 3) sequence datatype
        destination_id ((s, c) :: consecutive_updates (s + 1) cs) s [] []).map
          (Except.map set_push_on_last) = _
      rw [heq, hloop, hflush]
      rfl
    · show (rgb_bytes_from_colors (c :: cs)).length = 3 * (c :: cs).length
      exact rgb_bytes_length (c :: cs)
    · show ((DDP_VER1 % 256) ||| DDP_PUSH) &&& DDP_PUSH = DDP_PUSH
      decide

/-- Witness for `sparse_run_merging`: three consecutive updates starting at
pixel 5 with the default 480-pixel ceiling. -/
theorem sparse_run_merging_witness :
    (∃ p, build_ddp_sparse_packets
        (consecutive_updates 5 [((1 : ℤ), (2 : ℤ), (3 : ℤ)),
          ((4 : ℤ), (5 : ℤ), (6 : ℤ)), ((7 : ℤ), (8 : ℤ), (9 : ℤ))]) 2 1 480
        DDP_DATATYPE_RGB_8 = some (.ok [p]) ∧
      p.offset = 5 * 3 ∧
      p.payload = rgb_bytes_from_colors [((1 : ℤ), (2 : ℤ), (3 : ℤ)),
        ((4 : ℤ), (5 : ℤ), (6 : ℤ)), ((7 : ℤ), (8 : ℤ), (9 : ℤ))] ∧
      p.data_len = 3 * 3 ∧ p.flags &&& DDP_PUSH = DDP_PUSH) ∧
    build_ddp_sparse_packets [(10, ((1 : ℤ), (2 : ℤ), (3 : ℤ))),
        (11, ((4 : ℤ), (5 : ℤ), (6 : ℤ))), (12, ((7 : ℤ), (8 : ℤ), (9 : ℤ)))]
        1 1 3 DDP_DATATYPE_RGB_8 =
      some (.ok [mk_packet DDP_VER1 1 DDP_DATATYPE_RGB_8 1 30 [1, 2, 3, 4, 5, 6],
        patch_push (mk_packet DDP_VER1 1 DDP_DATATYPE_RGB_8 1 36 [7, 8, 9])]) ∧
    build_ddp_sparse_packets [(5, ((1 : ℤ), (2 : ℤ), (3 : ℤ))),
        (6, ((4 : ℤ), (5 : ℤ), (6 : ℤ))), (7, ((7 : ℤ), (8 : ℤ), (9 : ℤ)))]
        2 1 480 DDP_DATATYPE_RGB_8 =
      some (.ok [patch_push (mk_packet DDP_VER1 2 DDP_DATATYPE_RGB_8 1 15
        [1, 2, 3, 4, 5, 6, 7, 8, 9])]) :=
  sparse_run_merging 5 [((1 : ℤ), (2 : ℤ), (3 : ℤ)), ((4 : ℤ), (5 : ℤ), (6 : ℤ)),
    ((7 : ℤ), (8 : ℤ), (9 : ℤ))] 2 1 480 DDP_DATATYPE_RGB_8 (by decide) (by decide)
    (by decide) (by decide)

/-! ## C3: full-frame vs sparse selection threshold -/

/-- C3 counterexample: on a 5-pixel display with 2 dirty pixels (ratio 0.4,
below one half) the code still selects the full-frame path, because the actual
comparison is against the integer threshold `(width*height) // 2 = 2`. -/
theorem dirty_ratio_boundary_cex :
    selectsFullFrame (MatrixDisplay_show_ddp 5 1
      ⟨5, 1, [((1 : ℤ), (1 : ℤ), (1 : ℤ)), ((1 : ℤ), (1 : ℤ), (1 : ℤ)),
        default, default, default], {0, 1}⟩) = true ∧
    (MatrixFramebuffer.mk 5 1 [((1 : ℤ), (1 : ℤ), (1 : ℤ)),
        ((1 : ℤ), (1 : ℤ), (1 : ℤ)), default, default, default]
        {0, 1}).get_dirty_pixels.length = 2 ∧
    2 * 2 < 5 * 1 := by
  refine ⟨by decide, by decide, by decide⟩

/-- C3 amended: in ddp mode, for a size-matched framebuffer with a non-empty
dirty set, `MatrixDisplay.show` selects the full-frame path exactly when
`dirty_count ≥ (width*height) // 2` (integer division); at a ratio of exactly
one half (even pixel count) the full-frame path is therefore selected — the
boundary is inclusive — but on odd-sized buffers it is also selected at a
dirty count just below half; otherwise the dirty pixels are remapped through
the wiring table and sparse-encoded. -/
theorem dirty_ratio_threshold (width height : ℕ) (fb : MatrixFramebuffer)
    (hw : fb.width = width) (hh : fb.height = height)
    (hdirty : fb.get_dirty_pixels ≠ []) :
    (selectsFullFrame (MatrixDisplay_show_ddp width height fb) = true ↔
      width * height / 2 ≤ fb.get_dirty_pixels.length) ∧
    (fb.get_dirty_pixels.length < width * height / 2 →
      MatrixDisplay_show_ddp width height fb =
        .ok (.sparse (fb.get_dirty_pixels.map
          (fun u => ((logical_to_physical width height).getD u.1 0, u.2))))) ∧
    (2 * fb.get_dirty_pixels.length = width * height →
      selectsFullFrame (MatrixDisplay_show_ddp width height fb) = true) := by
  have hpos : 0 < fb.get_dirty_pixels.length := List.length_pos.mpr hdirty
  have hsize : ¬(fb.width ≠ width ∨ fb.height ≠ height) := by
    rw [hw, hh]
    simp
  by_cases hlt : fb.get_dirty_pixels.length < width * height / 2
  · have hshow : MatrixDisplay_show_ddp width height fb =
        .ok (.sparse (fb.get_dirty_pixels.map
          (fun u => ((logical_to_physical width height).getD u.1 0, u.2)))) := by
      simp only [MatrixDisplay_show_ddp, if_neg hsize, if_neg hdirty]
      rw [if_pos ⟨hlt, hpos⟩]
    rw [hshow]
    refine ⟨?_, fun _ => rfl, ?_⟩
    · constructor
      · intro h
        simp [selectsFullFrame] at h
      · intro h
        exact absurd h (by omega)
    · intro h
      exact absurd h (by omega)
  · have hshow : MatrixDisplay_show_ddp width height fb =
        .ok (.fullFrame (remap_full_frame width height fb)) := by
      simp only [MatrixDisplay_show_ddp, if_neg hsize, if_neg hdirty]
      rw [if_neg (fun hc => hlt hc.1)]
    rw [hshow]
    refine ⟨?_, fun hc => absurd hc hlt, fun _ => rfl⟩
    constructor
    · intro _
      omega
    · intro _
      rfl

/-- Witness for `dirty_ratio_threshold`: a 2x2 display with one dirty pixel
(ratio 0.25) takes the sparse path. -/
theorem dirty_ratio_threshold_witness :
    (selectsFullFrame (MatrixDisplay_show_ddp 2 2
        ⟨2, 2, [((1 : ℤ), (1 : ℤ), (1 : ℤ)), default, default, default],
          {0}⟩) = true ↔
      2 * 2 / 2 ≤ (MatrixFramebuffer.mk 2 2 [((1 : ℤ), (1 : ℤ), (1 : ℤ)),
        default, default, default] {0}).get_dirty_pixels.length) ∧
    ((MatrixFramebuffer.mk 2 2 [((1 : ℤ), (1 : ℤ), (1 : ℤ)), default, default,
        default] {0}).get_dirty_pixels.length < 2 * 2 / 2 →
      MatrixDisplay_show_ddp 2 2 ⟨2, 2, [((1 : ℤ), (1 : ℤ), (1 : ℤ)), default,
          default, default], {0}⟩ =
        .ok (.sparse ((MatrixFramebuffer.mk 2 2 [((1 : ℤ), (1 : ℤ), (1 : ℤ)),
          default, default, default] {0}).get_dirty_pixels.map
          (fun u => ((logical_to_physical 2 2).getD u.1 0, u.2))))) ∧
    (2 * (MatrixFramebuffer.mk 2 2 [((1 : ℤ), (1 : ℤ), (1 : ℤ)), default,
        default, default] {0}).get_dirty_pixels.length = 2 * 2 →
      selectsFullFrame (MatrixDisplay_show_ddp 2 2
        ⟨2, 2, [((1 : ℤ), (1 : ℤ), (1 : ℤ)), default, default, default],
          {0}⟩) = true) :=
  dirty_ratio_threshold 2 2
    ⟨2, 2, [((1 : ℤ), (1 : ℤ), (1 : ℤ)), default, default, default], {0}⟩
    rfl rfl (by decide)

/-! ## C6: the dirty-set invariant of the framebuffer -/

theorem runOps_dirty_spec :
    ∀ (ops : List FBOp) (fb fb' : MatrixFramebuffer),
      fb.pixels.length = fb.width * fb.height →
      fb.dirty ⊆ Finset.range (fb.width * fb.height) →
      runOps fb ops = .ok fb' →
      fb'.width = fb.width ∧ fb'.height = fb.height ∧
      fb'.pixels.length = fb'.width * fb'.height ∧
      fb'.dirty ⊆ Finset.range (fb'.width * fb'.height) ∧
      fb'.dirty = dirtySpec fb ops fb.dirty := by
  intro ops
  induction ops with
  | nil =>
    intro fb fb' hlen hsub hrun
    simp only [runOps] at hrun
    injection hrun with h
    subst h
    exact ⟨rfl, rfl, hlen, hsub, rfl⟩
  | cons op rest ih =>
    intro fb fb' hlen hsub hrun
    cases op with
    | set_pixel x y c =>
      by_cases hb : x < fb.width ∧ y < fb.height
      · have hidx : y * fb.width + x < fb.width * fb.height := by
          obtain ⟨hx, hy⟩ := hb
          calc y * fb.width + x < y * fb.width + fb.width := by omega
            _ = (y + 1) * fb.width := by ring
            _ ≤ fb.height * fb.width := Nat.mul_le_mul_right _ (by omega)
            _ = fb.width * fb.height := Nat.mul_comm _ _
        by_cases hch : fb.pixels.getD (y * fb.width + x) default ≠ c
        · simp only [runOps, FBOp.apply, MatrixFramebuffer.set_pixel,
            if_neg (not_not_intro hb), if_pos hch] at hrun
          obtain ⟨h1, h2, h3, h4, h5⟩ := ih
            ⟨fb.width, fb.height, fb.pixels.set (y * fb.width + x) c,
              insert (y * fb.width + x) fb.dirty⟩ fb'
            (by
              show (fb.pixels.set (y * fb.width + x) c).length = _
              simpa using hlen)
            (by
              show insert (y * fb.width + x) fb.dirty ⊆
                Finset.range (fb.width * fb.height)
              intro a ha
              rcases Finset.mem_insert.mp ha with ha | ha
              · subst ha
                exact Finset.mem_range.mpr hidx
              · exact hsub ha)
            hrun
          refine ⟨h1, h2, h3, h4, ?_⟩
          rw [h5]
          simp only [dirtySpec, FBOp.apply, MatrixFramebuffer.set_pixel,
            if_neg (not_not_intro hb), if_pos hch]
          have hlt : y * fb.width + x < fb.pixels.length := by omega
          have hcond : (fb.pixels.set (y * fb.width + x) c).getD
              (y * fb.width + x) default ≠
              fb.pixels.getD (y * fb.width + x) default := by
            have : (fb.pixels.set (y * fb.width + x) c).getD
                (y * fb.width + x) default = c := by
              simp [List.getD_eq_getElem?_getD, List.getElem?_set, hlt]
            rw [this]
            exact fun hcc => hch hcc.symm
          rw [if_pos hcond]
        · simp only [runOps, FBOp.apply, MatrixFramebuffer.set_pixel,
            if_neg (not_not_intro hb), if_neg hch] at hrun
          obtain ⟨h1, h2, h3, h4, h5⟩ := ih fb fb' hlen hsub hrun
          refine ⟨h1, h2, h3, h4, ?_⟩
          rw [h5]
          simp only [dirtySpec, FBOp.apply, MatrixFramebuffer.set_pixel,
            if_neg (not_not_intro hb), if_neg hch]
          rw [if_neg (fun hcc => hcc rfl)]
      · simp only [runOps, FBOp.apply, MatrixFramebuffer.set_pixel,
          if_pos hb] at hrun
        exact Except.noConfusion hrun
    | clear c =>
      simp only [runOps, FBOp.apply] at hrun
      obtain ⟨h1, h2, h3, h4, h5⟩ := ih (fb.clear c) fb'
        (by simp [MatrixFramebuffer.clear])
        (by simp [MatrixFramebuffer.clear])
        hrun
      refine ⟨h1, h2, h3, h4, ?_⟩
      rw [h5]
      simp only [dirtySpec, FBOp.apply]
      have hu : fb.dirty ∪ Finset.range (fb.width * fb.height) =
          Finset.range (fb.width * fb.height) :=
        Finset.union_eq_right.mpr hsub
      rw [hu]
      rfl
    | fill c =>
      simp only [runOps, FBOp.apply, MatrixFramebuffer.fill] at hrun
      obtain ⟨h1, h2, h3, h4, h5⟩ := ih (fb.clear c) fb'
        (by simp [MatrixFramebuffer.clear])
        (by simp [MatrixFramebuffer.clear])
        hrun
      refine ⟨h1, h2, h3, h4, ?_⟩
      rw [h5]
      simp only [dirtySpec, FBOp.apply, MatrixFramebuffer.fill]
      have hu : fb.dirty ∪ Finset.range (fb.width * fb.height) =
          Finset.range (fb.width * fb.height) :=
        Finset.union_eq_right.mpr hsub
      rw [hu]
      rfl
    | clear_dirty =>
      simp only [runOps, FBOp.apply] at hrun
      obtain ⟨h1, h2, h3, h4, h5⟩ := ih fb.clear_dirty fb'
        (by simp [MatrixFramebuffer.clear_dirty]; exact hlen)
        (by simp [MatrixFramebuffer.clear_dirty])
        hrun
      refine ⟨h1, h2, h3, h4, ?_⟩
      rw [h5]
      simp only [dirtySpec, FBOp.apply]
      rfl

/-- C6: after any sequence of framebuffer operations that runs without an
out-of-bounds error, the dirty set equals the specification's dirty set,
computed from observable pixel values only: the indices at which some
`set_pixel` actually changed the stored color since the last `clear_dirty`
(so a write of the already-stored color adds nothing, and repeated identical
writes add the index exactly once), except that `clear`/`fill` mark every
index dirty unconditionally — even when the fill color equals the prior
contents. -/
theorem framebuffer_dirty_invariant (width height : ℕ) (ops : List FBOp)
    (fb : MatrixFramebuffer)
    (hrun : runOps (MatrixFramebuffer.init width height) ops = .ok fb) :
    fb.dirty = dirtySpec (MatrixFramebuffer.init width height) ops ∅ :=
  (runOps_dirty_spec ops (MatrixFramebuffer.init width height) fb
    (by simp [MatrixFramebuffer.init])
    (by simp [MatrixFramebuffer.init])
    hrun).2.2.2.2

/-- Witness for `framebuffer_dirty_invariant`: on a 2x2 buffer, a fresh write,
a repeated identical write, and a same-value write together leave exactly one
dirty index. -/
theorem framebuffer_dirty_invariant_witness :
    (MatrixFramebuffer.mk 2 2 [((5 : ℤ), (5 : ℤ), (5 : ℤ)), default, default,
        default] {0}).dirty =
      dirtySpec (MatrixFramebuffer.init 2 2)
        [.set_pixel 0 0 ((5 : ℤ), (5 : ℤ), (5 : ℤ)),
          .set_pixel 0 0 ((5 : ℤ), (5 : ℤ), (5 : ℤ)),
          .set_pixel 1 1 default] ∅ :=
  framebuffer_dirty_invariant 2 2
    [.set_pixel 0 0 ((5 : ℤ), (5 : ℤ), (5 : ℤ)),
      .set_pixel 0 0 ((5 : ℤ), (5 : ℤ), (5 : ℤ)),
      .set_pixel 1 1 default]
    (MatrixFramebuffer.mk 2 2 [((5 : ℤ), (5 : ℤ), (5 : ℤ)), default, default,
      default] {0})
    (by decide)

/-! ## C10: decoding the sparse packets -/

theorem enum_from_append (l1 l2 : List ℕ) :
    ∀ off, enum_from off (l1 ++ l2) =
      enum_from off l1 ++ enum_from (off + l1.length) l2 := by
  induction l1 with
  | nil => intro off; simp [enum_from]
  | cons b rest ih =>
    intro off
    show (off, b) :: enum_from (off + 1) (rest ++ l2) =
      ((off, b) :: enum_from (off + 1) rest) ++
        enum_from (off + (rest.length + 1)) l2
    rw [ih (off + 1), List.cons_append]
    have harith : off + 1 + rest.length = off + (rest.length + 1) := by omega
    rw [harith]

theorem all_writes_append (ps qs : List DDPPacket) :
    all_writes (ps ++ qs) = all_writes ps ++ all_writes qs := by
  simp [all_writes]

theorem all_writes_set_push (ps : List DDPPacket) :
    all_writes (set_push_on_last ps) = all_writes ps := by
  induction ps with
  | nil => rfl
  | cons p rest ih =>
    cases rest with
    | nil => rfl
    | cons q qs =>
      show all_writes (p :: set_push_on_last (q :: qs)) = all_writes (p :: q :: qs)
      simp only [all_writes, List.map_cons, List.flatten_cons] at ih ⊢
      rw [ih]

theorem chunk_loop_writes (max_payload : ℤ) (sequence datatype : ℕ)
    (destination_id : ℤ) (offset : ℕ) :
    ∀ fuel chunk_start bytes out,
      chunk_loop_val max_payload sequence datatype destination_id offset fuel
          chunk_start bytes = some out →
      all_writes out = enum_from (offset + chunk_start) bytes := by
  intro fuel
  induction fuel with
  | zero =>
    intro cs bytes out h
    cases bytes with
    | nil =>
      injection h with h
      subst h
      rfl
    | cons b rest => exact Option.noConfusion h
  | succ n ih =>
    intro cs bytes out h
    cases bytes with
    | nil =>
      injection h with h
      subst h
      rfl
    | cons b rest =>
      by_cases hmp : max_payload ≤ 0
      · rw [chunk_loop_val, if_pos hmp] at h
        exact Option.noConfusion h
      · simp only [chunk_loop_val, if_neg hmp] at h
        cases hrec : chunk_loop_val max_payload sequence datatype destination_id
            offset n (cs + (b :: rest.take (max_payload.toNat - 1)).length)
            (rest.drop (max_payload.toNat - 1)) with
        | none =>
          rw [hrec] at h
          exact Option.noConfusion h
        | some out' =>
          rw [hrec] at h
          injection h with h
          subst h
          have hih := ih _ _ _ hrec
          simp only [all_writes, List.map_cons, List.flatten_cons] at hih ⊢
          rw [hih]
          show enum_from (offset + cs) (b :: rest.take (max_payload.toNat - 1)) ++
            enum_from (offset + (cs + (b :: rest.take (max_payload.toNat - 1)).length))
              (rest.drop (max_payload.toNat - 1)) = _
          rw [show (b :: rest) = (b :: rest.take (max_payload.toNat - 1)) ++
            rest.drop (max_payload.toNat - 1) by simp [List.take_append_drop]]
          rw [enum_from_append]
          have harith : offset +
              (cs + (b :: rest.take (max_payload.toNat - 1)).length) =
              offset + cs + (b :: rest.take (max_payload.toNat - 1)).length := by
            omega
          rw [harith]

theorem flush_run_writes (max_payload : ℤ) (sequence datatype : ℕ)
    (destination_id : ℤ) (run_start_idx : ℕ) (run_pixels : List Color)
    (out : List DDPPacket)
    (h : flush_run_val max_payload sequence datatype destination_id run_start_idx
      run_pixels = some out) :
    all_writes out =
      enum_from (run_start_idx * 3) (rgb_bytes_from_colors run_pixels) := by
  by_cases hrp : run_pixels = []
  · subst hrp
    simp only [flush_run_val, if_pos rfl] at h
    injection h with h
    subst h
    rfl
  · simp only [flush_run_val, if_neg hrp] at h
    have := chunk_loop_writes max_payload sequence datatype destination_id
      (run_start_idx * 3) (rgb_bytes_from_colors run_pixels).length 0
      (rgb_bytes_from_colors run_pixels) out h
    simpa using this

theorem rgb_bytes_append (l1 l2 : List Color) :
    rgb_bytes_from_colors (l1 ++ l2) =
      rgb_bytes_from_colors l1 ++ rgb_bytes_from_colors l2 := by
  simp [rgb_bytes_from_colors]

theorem enum_rgb_single (i : ℕ) (c : Color) :
    enum_from (i * 3) (rgb_bytes_from_colors [c]) = update_bytes (i, c) := rfl

theorem enum_rgb_snoc (run_start_idx : ℕ) (run_pixels : List Color) (c : Color) :
    enum_from (run_start_idx * 3) (rgb_bytes_from_colors (run_pixels ++ [c])) =
      enum_from (run_start_idx * 3) (rgb_bytes_from_colors run_pixels) ++
        update_bytes (run_start_idx + run_pixels.length, c) := by
  rw [rgb_bytes_append, enum_from_append, rgb_bytes_length]
  have harith : run_start_idx * 3 + 3 * run_pixels.length =
      (run_start_idx + run_pixels.length) * 3 := by ring
  rw [harith, enum_rgb_single]

theorem sparse_loop_writes (max_payload : ℤ) (sequence datatype : ℕ)
    (destination_id : ℤ) :
    ∀ (pending : List (ℕ × Color)) (run_start_idx : ℕ)
      (run_pixels : List Color) (packets out : List DDPPacket),
      sparse_loop_val max_payload sequence datatype destination_id pending
        run_start_idx run_pixels packets = some out →
      all_writes out = all_writes packets ++
        enum_from (run_start_idx * 3) (rgb_bytes_from_colors run_pixels) ++
        pending.flatMap update_bytes := by
  intro pending
  induction pending with
  | nil =>
    intro rs rp packets out h
    simp only [sparse_loop_val] at h
    cases hfl : flush_run_val max_payload sequence datatype destination_id rs rp with
    | none =>
      rw [hfl] at h
      exact Option.noConfusion h
    | some fl =>
      rw [hfl] at h
      injection h with h
      subst h
      rw [all_writes_append,
        flush_run_writes max_payload sequence datatype destination_id rs rp fl hfl]
      simp
  | cons u rest ih =>
    intro rs rp packets out h
    obtain ⟨idx, c⟩ := u
    by_cases hcond : idx = rs + rp.length ∧ ((rp.length * 3 : ℤ)) < max_payload - 3
    · rw [sparse_loop_val, if_pos hcond] at h
      have hih := ih rs (rp ++ [c]) packets out h
      rw [hih, enum_rgb_snoc]
      obtain ⟨h1, _⟩ := hcond
      subst h1
      simp [List.flatMap_cons, List.append_assoc]
    · rw [sparse_loop_val, if_neg hcond] at h
      cases hfl : flush_run_val max_payload sequence datatype destination_id rs rp with
      | none =>
        rw [hfl] at h
        exact Option.noConfusion h
      | some fl =>
        rw [hfl] at h
        have hrec : sparse_loop_val max_payload sequence datatype destination_id rest
            idx [c] (packets ++ fl) = some out := h
        have hih := ih idx [c] (packets ++ fl) out hrec
        rw [hih, all_writes_append,
          flush_run_writes max_payload sequence datatype destination_id rs rp fl hfl,
          enum_rgb_single]
        simp [List.flatMap_cons, List.append_assoc]

theorem build_sparse_writes (pixel_updates : List (ℕ × Color)) (sequence : ℕ)
    (destination_id : ℤ) (max_pixels_per_packet : ℤ) (datatype : ℕ)
    (hchunk : max_pixels_per_packet * 3 ≤ 65535)
    (hidx : ∀ u ∈ pixel_updates, u.1 * 3 + 3 ≤ 2 ^ 32)
    (ps : List DDPPacket)
    (h : build_ddp_sparse_packets pixel_updates sequence destination_id
      max_pixels_per_packet datatype = some (.ok ps)) :
    all_writes ps =
      (pixel_updates.insertionSort (fun a b => a.1 ≤ b.1)).flatMap
        update_bytes := by
  cases pixel_updates with
  | nil =>
    simp only [build_ddp_sparse_packets] at h
    have h2 : some (Except.ok [mk_packet (DDP_VER1 ||| DDP_PUSH) sequence
        datatype destination_id 0 []]) = some (Except.ok ps) := h
    injection h2 with h2
    injection h2 with h2
    subst h2
    rfl
  | cons u us =>
    cases hL : (u :: us).insertionSort (fun a b => a.1 ≤ b.1) with
    | nil =>
      have := List.length_insertionSort (fun (a b : ℕ × Color) => a.1 ≤ b.1)
        (u :: us)
      rw [hL] at this
      simp at this
    | cons v vs =>
      obtain ⟨vi, vc⟩ := v
      have hperm : ((vi, vc) :: vs).Perm (u :: us) := by
        rw [← hL]
        exact List.perm_insertionSort (fun a b => a.1 ≤ b.1) (u :: us)
      have hpend : ∀ w ∈ (vi, vc) :: vs, w.1 * 3 + 3 ≤ 2 ^ 32 :=
        fun w hw => hidx w (hperm.mem_iff.mp hw)
      have heq := sparse_loop_eq_val (max_pixels_per_packet * 3) sequence
        datatype destination_id (by omega) ((vi, vc) :: vs) vi [] [] hpend
        (Or.inl rfl)
      simp only [build_ddp_sparse_packets] at h
      rw [hL] at h
      have h2 : (sparse_loop (max_pixels_per_packet * 3) sequence datatype
          destination_id ((vi, vc) :: vs) vi [] []).map
          (Except.map set_push_on_last) = some (.ok ps) := h
      rw [heq] at h2
      cases hsl : sparse_loop_val (max_pixels_per_packet * 3) sequence datatype
          destination_id ((vi, vc) :: vs) vi [] [] with
      | none =>
        rw [hsl] at h2
        exact Option.noConfusion h2
      | some out =>
        rw [hsl] at h2
        have h3 : some (Except.ok (set_push_on_last out)) =
            some (Except.ok ps) := h2
        injection h3 with h3
        injection h3 with h3
        subst h3
        rw [all_writes_set_push]
        have := sparse_loop_writes (max_pixels_per_packet * 3) sequence datatype
          destination_id ((vi, vc) :: vs) vi [] [] out hsl
        simpa using this

theorem apply_writes_not_mem :
    ∀ (ws : List (ℕ × ℕ)) (mem : ℕ → Option ℕ) (pos : ℕ),
      pos ∉ ws.map Prod.fst → apply_writes ws mem pos = mem pos := by
  intro ws
  induction ws with
  | nil => intro mem pos _; rfl
  | cons w ws ih =>
    intro mem pos hpos
    simp only [List.map_cons, List.mem_cons, not_or] at hpos
    show apply_writes ws (Function.update mem w.1 (some w.2)) pos = mem pos
    rw [ih _ pos hpos.2, Function.update_noteq hpos.1]

theorem apply_writes_mem :
    ∀ (ws : List (ℕ × ℕ)) (mem : ℕ → Option ℕ) (pos b : ℕ),
      (ws.map Prod.fst).Nodup → (pos, b) ∈ ws →
      apply_writes ws mem pos = some b := by
  intro ws
  induction ws with
  | nil =>
    intro mem pos b _ hmem
    simp at hmem
  | cons w ws ih =>
    intro mem pos b hnd hmem
    simp only [List.map_cons, List.nodup_cons] at hnd
    rcases List.mem_cons.mp hmem with hmem | hmem
    · have hw1 : w.1 = pos := by rw [← hmem]
      have hw2 : w.2 = b := by rw [← hmem]
      have hnotin : pos ∉ ws.map Prod.fst := by
        rw [← hw1]
        exact hnd.1
      show apply_writes ws (Function.update mem w.1 (some w.2)) pos = some b
      rw [apply_writes_not_mem ws _ pos hnotin, hw1, hw2, Function.update_same]
    · exact ih _ pos b hnd.2 hmem

theorem mem_flatMap_update_positions (l : List (ℕ × Color)) (pos : ℕ) :
    pos ∈ (l.flatMap update_bytes).map Prod.fst ↔
      ∃ u ∈ l, pos = u.1 * 3 ∨ pos = u.1 * 3 + 1 ∨ pos = u.1 * 3 + 2 := by
  simp only [List.mem_map, List.mem_flatMap, update_bytes, List.mem_cons,
    List.mem_singleton]
  constructor
  · rintro ⟨w, ⟨u, hu, hw⟩, hfst⟩
    refine ⟨u, hu, ?_⟩
    rcases hw with hw | hw | hw | hw
    · left; rw [← hfst, hw]
    · right; left; rw [← hfst, hw]
    · right; right; rw [← hfst, hw]
    · simp at hw
  · rintro ⟨u, hu, hpos⟩
    rcases hpos with hpos | hpos | hpos
    · exact ⟨(u.1 * 3, clamp_u8 u.2.1), ⟨u, hu, by left; rfl⟩, hpos.symm⟩
    · exact ⟨(u.1 * 3 + 1, clamp_u8 u.2.2.1), ⟨u, hu, by right; left; rfl⟩,
        hpos.symm⟩
    · exact ⟨(u.1 * 3 + 2, clamp_u8 u.2.2.2), ⟨u, hu, by right; right; left; rfl⟩,
        hpos.symm⟩

theorem flatMap_positions_nodup (l : List (ℕ × Color))
    (h : l.Pairwise (fun a b : ℕ × Color => a.1 < b.1)) :
    ((l.flatMap update_bytes).map Prod.fst).Nodup := by
  induction l with
  | nil => simp
  | cons u us ih =>
    rw [List.pairwise_cons] at h
    simp only [List.flatMap_cons, List.map_append]
    rw [List.nodup_append]
    refine ⟨?_, ih h.2, ?_⟩
    · show ((update_bytes u).map Prod.fst).Nodup
      simp [update_bytes]
    · intro pos hpos1 hpos2
      rw [mem_flatMap_update_positions] at hpos2
      obtain ⟨v, hv, hposv⟩ := hpos2
      have hlt : u.1 < v.1 := h.1 v hv
      have hpos1' : pos = u.1 * 3 ∨ pos = u.1 * 3 + 1 ∨ pos = u.1 * 3 + 2 := by
        simpa [update_bytes] using hpos1
      omega

theorem sorted_pairwise_lt (pixel_updates : List (ℕ × Color))
    (hnd : (pixel_updates.map Prod.fst).Nodup) :
    (pixel_updates.insertionSort (fun a b => a.1 ≤ b.1)).Pairwise
      (fun a b => a.1 < b.1) := by
  have hsorted := List.sorted_insertionSort
    (fun a b : ℕ × Color => a.1 ≤ b.1) pixel_updates
  have hperm := List.perm_insertionSort
    (fun a b : ℕ × Color => a.1 ≤ b.1) pixel_updates
  have hnd2 : ((pixel_updates.insertionSort
      (fun a b => a.1 ≤ b.1)).map Prod.fst).Nodup :=
    ((hperm.map Prod.fst).nodup_iff).mpr hnd
  have hnd3 : List.Pairwise (fun a b : ℕ => a ≠ b)
      ((pixel_updates.insertionSort (fun a b => a.1 ≤ b.1)).map Prod.fst) := hnd2
  have hne := List.pairwise_map.mp hnd3
  exact (hsorted.and hne).imp (fun h => lt_of_le_of_ne h.1 h.2)

theorem clamp_u8_of_range (v : ℤ) (h1 : 0 ≤ v) (h2 : v ≤ 255) :
    clamp_u8 v = v.toNat := by
  unfold clamp_u8
  rw [if_neg (by omega), if_neg (by omega)]

/-- C10 counterexample: a single update at pixel index 1431655766 stands for
byte offset 4294967298, which exceeds the 32-bit offset field of the packet
header, so the sparse encoder raises `struct.error` and returns no packets to
decode. -/
theorem sparse_offset_overflow :
    build_ddp_sparse_packets [(1431655766, ((1 : ℤ), (2 : ℤ), (3 : ℤ)))] 1 1 480
        DDP_DATATYPE_RGB_8 =
      some (.error
        "struct.error: L format requires 0 <= number <= 4294967295") := by
  decide

/-- C10 amended: for any update collection with distinct pixel indices whose
byte offsets fit the packet header's 32-bit offset field, channel values in
0-255, and any positive chunk size of at most 65535 bytes, decoding the sparse
packets — writing each payload into a byte array at its header byte offset —
stores for each update `(i, (r, g, b))` exactly `r`, `g`, `b` at positions
`3i`, `3i+1`, `3i+2`, and writes nothing at any position not belonging to an
updated pixel. -/
theorem sparse_decode_roundtrip (pixel_updates : List (ℕ × Color)) (sequence : ℕ)
    (destination_id : ℤ) (max_pixels_per_packet : ℤ) (datatype : ℕ)
    (hmppp : 0 < max_pixels_per_packet)
    (hnd : (pixel_updates.map Prod.fst).Nodup)
    (hval : ∀ u ∈ pixel_updates, 0 ≤ u.2.1 ∧ u.2.1 ≤ 255 ∧ 0 ≤ u.2.2.1 ∧
      u.2.2.1 ≤ 255 ∧ 0 ≤ u.2.2.2 ∧ u.2.2.2 ≤ 255)
    (hchunk : max_pixels_per_packet * 3 ≤ 65535)
    (hidx : ∀ u ∈ pixel_updates, u.1 * 3 + 3 ≤ 2 ^ 32) :
    ∃ ps, build_ddp_sparse_packets pixel_updates sequence destination_id
        max_pixels_per_packet datatype = some (.ok ps) ∧
      (∀ u ∈ pixel_updates,
        decode_packets ps (u.1 * 3) = some u.2.1.toNat ∧
        decode_packets ps (u.1 * 3 + 1) = some u.2.2.1.toNat ∧
        decode_packets ps (u.1 * 3 + 2) = some u.2.2.2.toNat) ∧
      (∀ pos, decode_packets ps pos ≠ none →
        ∃ u ∈ pixel_updates,
          pos = u.1 * 3 ∨ pos = u.1 * 3 + 1 ∨ pos = u.1 * 3 + 2) := by
  have hex : ∃ ps, build_ddp_sparse_packets pixel_updates sequence
      destination_id max_pixels_per_packet datatype = some (.ok ps) := by
    cases pixel_updates with
    | nil => exact ⟨_, rfl⟩
    | cons u us =>
      cases hL : (u :: us).insertionSort (fun a b => a.1 ≤ b.1) with
      | nil =>
        have := List.length_insertionSort (fun (a b : ℕ × Color) => a.1 ≤ b.1)
          (u :: us)
        rw [hL] at this
        simp at this
      | cons v vs =>
        obtain ⟨vi, vc⟩ := v
        obtain ⟨out, hsl, _, _⟩ := sparse_loop_success (max_pixels_per_packet * 3)
          sequence datatype destination_id (by omega) ((vi, vc) :: vs) vi [] []
        have hperm : ((vi, vc) :: vs).Perm (u :: us) := by
          rw [← hL]
          exact List.perm_insertionSort (fun a b => a.1 ≤ b.1) (u :: us)
        have hpend : ∀ w ∈ (vi, vc) :: vs, w.1 * 3 + 3 ≤ 2 ^ 32 :=
          fun w hw => hidx w (hperm.mem_iff.mp hw)
        have heq := sparse_loop_eq_val (max_pixels_per_packet * 3) sequence
          datatype destination_id (by omega) ((vi, vc) :: vs) vi [] [] hpend
          (Or.inl rfl)
        refine ⟨set_push_on_last out, ?_⟩
        simp only [build_ddp_sparse_packets]
        rw [hL]
        show (sparse_loop (max_pixels_per_packet * 3) sequence datatype
          destination_id ((vi, vc) :: vs) vi [] []).map
            (Except.map set_push_on_last) = _
        rw [heq, hsl]
        rfl
  obtain ⟨ps, hps⟩ := hex
  have hwrites := build_sparse_writes pixel_updates sequence destination_id
    max_pixels_per_packet datatype hchunk hidx ps hps
  have hnodup : ((all_writes ps).map Prod.fst).Nodup := by
    rw [hwrites]
    exact flatMap_positions_nodup _ (sorted_pairwise_lt pixel_updates hnd)
  refine ⟨ps, hps, ?_, ?_⟩
  · intro u hu
    have humem : u ∈ pixel_updates.insertionSort (fun a b => a.1 ≤ b.1) :=
      (List.perm_insertionSort _ pixel_updates).mem_iff.mpr hu
    obtain ⟨hr1, hr2, hg1, hg2, hb1, hb2⟩ := hval u hu
    refine ⟨?_, ?_, ?_⟩
    · have hmem : (u.1 * 3, clamp_u8 u.2.1) ∈ all_writes ps := by
        rw [hwrites]
        exact List.mem_flatMap.mpr ⟨u, humem, by simp [update_bytes]⟩
      have happ := apply_writes_mem (all_writes ps) (fun _ => none) (u.1 * 3)
        (clamp_u8 u.2.1) hnodup hmem
      rw [clamp_u8_of_range _ hr1 hr2] at happ
      exact happ
    · have hmem : (u.1 * 3 + 1, clamp_u8 u.2.2.1) ∈ all_writes ps := by
        rw [hwrites]
        exact List.mem_flatMap.mpr ⟨u, humem, by simp [update_bytes]⟩
      have happ := apply_writes_mem (all_writes ps) (fun _ => none) (u.1 * 3 + 1)
        (clamp_u8 u.2.2.1) hnodup hmem
      rw [clamp_u8_of_range _ hg1 hg2] at happ
      exact happ
    · have hmem : (u.1 * 3 + 2, clamp_u8 u.2.2.2) ∈ all_writes ps := by
        rw [hwrites]
        exact List.mem_flatMap.mpr ⟨u, humem, by simp [update_bytes]⟩
      have happ := apply_writes_mem (all_writes ps) (fun _ => none) (u.1 * 3 + 2)
        (clamp_u8 u.2.2.2) hnodup hmem
      rw [clamp_u8_of_range _ hb1 hb2] at happ
      exact happ
  · intro pos hneq
    by_cases hmem : pos ∈ (all_writes ps).map Prod.fst
    · rw [hwrites, mem_flatMap_update_positions] at hmem
      obtain ⟨u, hu, hpos⟩ := hmem
      exact ⟨u, (List.perm_insertionSort _ pixel_updates).mem_iff.mp hu, hpos⟩
    · exact absurd (apply_writes_not_mem _ _ _ hmem) hneq

/-- Witness for `sparse_decode_roundtrip`: updates at pixels 0 and 100. -/
theorem sparse_decode_roundtrip_witness :
    ∃ ps, build_ddp_sparse_packets [(0, ((255 : ℤ), (0 : ℤ), (0 : ℤ))),
        (100, ((0 : ℤ), (255 : ℤ), (0 : ℤ)))] 9 1 480 DDP_DATATYPE_RGB_8 =
        some (.ok ps) ∧
      (∀ u ∈ [((0 : ℕ), ((255 : ℤ), (0 : ℤ), (0 : ℤ))),
          ((100 : ℕ), ((0 : ℤ), (255 : ℤ), (0 : ℤ)))],
        decode_packets ps (u.1 * 3) = some u.2.1.toNat ∧
        decode_packets ps (u.1 * 3 + 1) = some u.2.2.1.toNat ∧
        decode_packets ps (u.1 * 3 + 2) = some u.2.2.2.toNat) ∧
      (∀ pos, decode_packets ps pos ≠ none →
        ∃ u ∈ [((0 : ℕ), ((255 : ℤ), (0 : ℤ), (0 : ℤ))),
          ((100 : ℕ), ((0 : ℤ), (255 : ℤ), (0 : ℤ)))],
          pos = u.1 * 3 ∨ pos = u.1 * 3 + 1 ∨ pos = u.1 * 3 + 2) :=
  sparse_decode_roundtrip [(0, ((255 : ℤ), (0 : ℤ), (0 : ℤ))),
    (100, ((0 : ℤ), (255 : ℤ), (0 : ℤ)))] 9 1 480 DDP_DATATYPE_RGB_8
    (by decide) (by decide) (by decide) (by decide) (by decide)
